import Mathlib

/-!
# Delay and success statistics of `single-bss-sld-edca.cc`

A shallow embedding of the statistics part of `main` (lines 216-228 and
511-755 of `src/single-bss-sld-edca.cc`): the head-of-line (HOL) time
reconstruction, the delay decomposition per (node, link) series and the
aggregation per access category.

Conventions of the embedding.

* A C++ `double` / `long double` holding a time stamp or a delay is an exact
  rational number; rounding is not modelled.  The only operation of the
  program that leaves the finite numbers is a division by zero, so a value
  that went through a division is a `Dbl`: a finite rational or `undef`
  (IEEE not-a-number or infinity).
* `std::map<AcIndex, T>` is a finite map on the four access categories the
  program uses (`AcMap`); `std::map<uint32_t, ...>` and
  `std::map<uint8_t, ...>` are association lists in key order, read with
  `List.lookup`.
* The `uint64_t` counters are natural numbers: each one is bounded by the
  number of transmission events of the simulated run, far below `2 ^ 64`.
* The command-line counts are `std::size_t` values: the sum of line 216 wraps
  at `2 ^ 64`, and the assignment loops of lines 225-228 count with a
  `uint32_t` that wraps at `2 ^ 32` (`pushLoop`, with fuel).  The station
  loops of the statistics code are the iteration over `1 .. nSld`, which
  they are for `nSld < 2 ^ 32 - 1`; `main` does not end otherwise.
-/

namespace SingleBssSldEdca

/-! ## Data model -/

/-- The access categories of `ns3/qos-utils.h` that `acList` can hold, in the
order of their numeric values (`AC_BE = 0`, `AC_BK = 1`, `AC_VI = 2`,
`AC_VO = 3`), which is the iteration order of a `std::map<AcIndex, _>`. -/
inductive AcIndex where
  | AC_BE
  | AC_BK
  | AC_VI
  | AC_VO
  deriving DecidableEq, Repr

/-- One entry of the success-info map of `WifiTxStatsHelper`: the fields the
program reads (`m_enqueueMs`, `m_dequeueMs`, `m_failures`). -/
structure TxRecord where
  m_enqueueMs : ℚ
  m_dequeueMs : ℚ
  m_failures : Nat
  deriving DecidableEq, Repr

/-- The value of `wifiTxStats.GetSuccessInfoMap()`: node id, then link id,
then the records of that (node, link) pair in order. -/
abbrev SuccessInfo := List (Nat × List (Nat × List TxRecord))

/-- A `double` that went through a division: a finite value or the result of
a division by zero. -/
inductive Dbl where
  | fin (q : ℚ)
  | undef
  deriving DecidableEq, Repr

instance : Zero Dbl := ⟨Dbl.fin 0⟩

/-- Floating-point division `a / b`: undefined when the denominator is zero
or an operand already is. -/
def Dbl.div : Dbl → Dbl → Dbl
  | Dbl.fin a, Dbl.fin b => if b = 0 then Dbl.undef else Dbl.fin (a / b)
  | _, _ => Dbl.undef

/-- Floating-point addition `a + b`. -/
def Dbl.add : Dbl → Dbl → Dbl
  | Dbl.fin a, Dbl.fin b => Dbl.fin (a + b)
  | _, _ => Dbl.undef

/-- The function `std::max(a, b)`: `(a < b) ? b : a`. -/
def stdMax (a b : ℚ) : ℚ := if a < b then b else a

/-! ## Per-series processing (lines 535-607) -/

/-- Lines 539-543, first `emplace_back`: the enqueue times of a series. -/
def enqueueTimes (records : List TxRecord) : List ℚ :=
  records.map (fun record => record.m_enqueueMs)

/-- Lines 539-543, second `emplace_back`: the dequeue (completion) times. -/
def dequeueTimes (records : List TxRecord) : List ℚ :=
  records.map (fun record => record.m_dequeueMs)

/-- Lines 544-559: the HOL loop over `i = 0 .. enq.size() - 1`. -/
def holTimes (enq deq : List ℚ) : List ℚ :=
  (List.range enq.length).foldl
    (fun hol i =>
      if i = 0 then hol ++ [enq.getD i 0]
      else hol ++ [stdMax (enq.getD i 0) (deq.getD (i - 1) 0)])
    []

/-- Lines 560-566: `v.erase(v.begin())`.  The helper only creates a series
when it appends a record to it, so the vector is non-empty there.  On an
empty vector the erase is undefined behaviour in the source; the value `[]`
given here then stands for nothing, and statements about whole runs are made
for traces that satisfy `seriesNonEmpty`. -/
def eraseBegin (v : List ℚ) : List ℚ := v.eraseIdx 0

/-- The entry `enqueueTimeMap[node][link]` after line 562. -/
def enqueueTimeMap (records : List TxRecord) : List ℚ :=
  eraseBegin (enqueueTimes records)

/-- The entry `dequeueTimeMap[node][link]` after line 564. -/
def dequeueTimeMap (records : List TxRecord) : List ℚ :=
  eraseBegin (dequeueTimes records)

/-- The entry `holTimeMap[node][link]` after line 566. -/
def holTimeMap (records : List TxRecord) : List ℚ :=
  eraseBegin (holTimes (enqueueTimes records) (dequeueTimes records))

/-- What the loop of lines 585-599 accumulates for one (node, link) pair. -/
structure LinkDelays where
  totalQueuingDelay : ℚ
  totalAccessDelay : ℚ
  accessDelays : List ℚ
  e2eDelays : List ℚ
  deriving DecidableEq, Repr

/-- One iteration of the loop of lines 585-599. -/
def delayStep (enq deq hol : List ℚ) (st : LinkDelays) (i : Nat) : LinkDelays :=
  { totalQueuingDelay := st.totalQueuingDelay + (hol.getD i 0 - enq.getD i 0)
    totalAccessDelay := st.totalAccessDelay + (deq.getD i 0 - hol.getD i 0)
    accessDelays := st.accessDelays ++ [deq.getD i 0 - hol.getD i 0]
    e2eDelays := st.e2eDelays ++ [deq.getD i 0 - enq.getD i 0] }

/-- Lines 585-599: the delay loop over the erased vectors of one series. -/
def delayLoop (enq deq hol : List ℚ) : LinkDelays :=
  (List.range enq.length).foldl (delayStep enq deq hol) ⟨0, 0, [], []⟩

/-- The delay loop of one series of the trace. -/
def linkDelays (records : List TxRecord) : LinkDelays :=
  delayLoop (enqueueTimeMap records) (dequeueTimeMap records) (holTimeMap records)

/-! ## Maps keyed by access category -/

/-- A `std::map<AcIndex, T>`: `none` where the key is absent. -/
abbrev AcMap (α : Type) := AcIndex → Option α

/-- The empty map. -/
def AcMap.empty {α : Type} : AcMap α := fun _ => none

/-- Reading `m[k]`: the stored value, or the value-initialised `T` (zero)
that `operator[]` inserts when the key is absent. -/
def AcMap.get {α : Type} [Zero α] (m : AcMap α) (k : AcIndex) : α := (m k).getD 0

/-- The assignment `m[k] = v`. -/
def AcMap.set {α : Type} (m : AcMap α) (k : AcIndex) (v : α) : AcMap α :=
  fun j => if j = k then some v else m j

/-- The update `m[k] += v`. -/
def AcMap.add {α : Type} [Zero α] [Add α] (m : AcMap α) (k : AcIndex) (v : α) : AcMap α :=
  m.set k (m.get k + v)

/-- The keys of a map in iteration order. -/
def AcMap.keys {α : Type} (m : AcMap α) : List AcIndex :=
  [AcIndex.AC_BE, AcIndex.AC_BK, AcIndex.AC_VI, AcIndex.AC_VO].filter (fun k => (m k).isSome)

/-! ## The run -/

/-- Lines 223-228: the station-class assignment, filled by four `push_back`
loops in the order BK, BE, VI, VO. -/
def acList (nBK nBE nVI nVO : Nat) : List AcIndex :=
  let pushN := fun (l : List AcIndex) (n : Nat) (ac : AcIndex) =>
    (List.range n).foldl (fun acc _ => acc ++ [ac]) l
  pushN (pushN (pushN (pushN [] nBK AcIndex.AC_BK) nBE AcIndex.AC_BE) nVI AcIndex.AC_VI)
    nVO AcIndex.AC_VO

/-- What the statistics code of `main` reads: the station-class assignment,
the station count, the payload size in bytes, the length of the observation
window in seconds and the finalized trace. -/
structure Run where
  acList : List AcIndex
  nSld : Nat
  payloadSize : Nat
  simulationTime : ℚ
  successInfo : SuccessInfo

/-! ## Success and attempt counts (lines 609-641) -/

/-- The two counter maps `successMap` and `attemptMap`. -/
structure Counts where
  successMap : AcMap Nat
  attemptMap : AcMap Nat

/-- Lines 626-627: the body of the innermost loop, for one record `pkt`. -/
def countPkt (type : AcIndex) (st : Counts) (pkt : TxRecord) : Counts :=
  { successMap := st.successMap.add type 1
    attemptMap := st.attemptMap.add type (1 + pkt.m_failures) }

/-- Lines 617-629: the body of the station loop for node id `i`.  The lookup
`acList[i - 1]` is within bounds whenever the run passed the check of line
216; the model skips a station without an assignment. -/
def countNode (r : Run) (st : Counts) (i : Nat) : Counts :=
  match r.acList[i - 1]? with
  | none => st
  | some type =>
    ((r.successInfo.lookup i).getD []).foldl
      (fun st records => records.2.foldl (countPkt type) st) st

/-- Lines 615-630: the station loop `for (i = 1; i < 1 + nSld; ++i)`. -/
def countLoop (r : Run) : Counts :=
  (List.range' 1 r.nSld).foldl (countNode r) ⟨AcMap.empty, AcMap.empty⟩

/-- The variable `successMap` after line 630. -/
def successMap (r : Run) : AcMap Nat := (countLoop r).successMap

/-- The variable `attemptMap` after line 630. -/
def attemptMap (r : Run) : AcMap Nat := (countLoop r).attemptMap

/-- Lines 632-641: the success probability of every category that has an
entry in `successMap`. -/
def sldSuccPrMap (r : Run) : AcMap Dbl :=
  (successMap r).keys.foldl
    (fun m type =>
      let successCount := (successMap r).get type
      let attemptCount := (attemptMap r).get type
      m.set type
        (if attemptCount > 0 then Dbl.div (Dbl.fin successCount) (Dbl.fin attemptCount)
         else Dbl.fin 0))
    AcMap.empty

/-! ## Throughput (lines 659-671) -/

/-- Lines 662-671: the throughput in Mbps of every category that has an entry
in `successMap`. -/
def sldThptMap (r : Run) : AcMap Dbl :=
  (successMap r).keys.foldl
    (fun m type =>
      let successCount := (successMap r).get type
      m.set type
        (Dbl.div
          (Dbl.div (Dbl.fin ((successCount : ℚ) * r.payloadSize * 8)) (Dbl.fin r.simulationTime))
          (Dbl.fin 1000000)))
    AcMap.empty

/-! ## Delay totals and means per category (lines 569-607 and 673-718) -/

/-- The map `totalQueuingDelayPerNodeLink` after line 607: one entry per
(node, link) pair of the trace. -/
def totalQueuingDelayPerNodeLink (successInfo : SuccessInfo) : List (Nat × List (Nat × ℚ)) :=
  successInfo.map (fun nodeMap =>
    (nodeMap.1, nodeMap.2.map (fun linkMap => (linkMap.1, (linkDelays linkMap.2).totalQueuingDelay))))

/-- The map `totalAccessDelayPerNodeLink` after line 607. -/
def totalAccessDelayPerNodeLink (successInfo : SuccessInfo) : List (Nat × List (Nat × ℚ)) :=
  successInfo.map (fun nodeMap =>
    (nodeMap.1, nodeMap.2.map (fun linkMap => (linkMap.1, (linkDelays linkMap.2).totalAccessDelay))))

/-- Lines 600-605: the per-(node, link) mean of a delay total, divided by
`m_numSuccessPerNodeLink - 1` (an unsigned 64-bit subtraction); `numSuccess`
is the count the helper reports for the pair. -/
def meanDelayPerNodeLink (total : ℚ) (numSuccess : Nat) : Dbl :=
  Dbl.div (Dbl.fin total) (Dbl.fin (((numSuccess + 2 ^ 64 - 1) % 2 ^ 64 : Nat) : ℚ))

/-- The two maps `queDelayTotalMap` and `accDelayTotalMap`. -/
structure DelayTotals where
  queDelayTotalMap : AcMap ℚ
  accDelayTotalMap : AcMap ℚ

/-- Lines 682-696: the body of the station loop for node id `i`. -/
def delayNode (r : Run) (st : DelayTotals) (i : Nat) : DelayTotals :=
  match r.acList[i - 1]? with
  | none => st
  | some type =>
    let st1 := (((totalQueuingDelayPerNodeLink r.successInfo).lookup i).getD []).foldl
      (fun st item => { st with queDelayTotalMap := st.queDelayTotalMap.add type item.2 }) st
    (((totalAccessDelayPerNodeLink r.successInfo).lookup i).getD []).foldl
      (fun st item => { st with accDelayTotalMap := st.accDelayTotalMap.add type item.2 }) st1

/-- Lines 680-697: the station loop `for (i = 1; i < 1 + nSld; ++i)`. -/
def delayTotals (r : Run) : DelayTotals :=
  (List.range' 1 r.nSld).foldl (delayNode r) ⟨AcMap.empty, AcMap.empty⟩

/-- The variable `queDelayTotalMap` after line 697. -/
def queDelayTotalMap (r : Run) : AcMap ℚ := (delayTotals r).queDelayTotalMap

/-- The variable `accDelayTotalMap` after line 697. -/
def accDelayTotalMap (r : Run) : AcMap ℚ := (delayTotals r).accDelayTotalMap

/-- The three maps `meanQueDelayMap`, `meanAccDelayMap`, `meanE2eDelayMap`. -/
structure MeanMaps where
  meanQueDelayMap : AcMap Dbl
  meanAccDelayMap : AcMap Dbl
  meanE2eDelayMap : AcMap Dbl

/-- Lines 701-717: the body of the loop over the entries of `successMap`. -/
def meanStep (r : Run) (st : MeanMaps) (type : AcIndex) : MeanMaps :=
  let successCount := (successMap r).get type
  if successCount > 0 then
    let meanQueDelay := Dbl.div (Dbl.fin ((queDelayTotalMap r).get type)) (Dbl.fin successCount)
    let meanAccDelay := Dbl.div (Dbl.fin ((accDelayTotalMap r).get type)) (Dbl.fin successCount)
    { meanQueDelayMap := st.meanQueDelayMap.set type meanQueDelay
      meanAccDelayMap := st.meanAccDelayMap.set type meanAccDelay
      meanE2eDelayMap := st.meanE2eDelayMap.set type (Dbl.add meanQueDelay meanAccDelay) }
  else
    { meanQueDelayMap := st.meanQueDelayMap.set type (Dbl.fin 0)
      meanAccDelayMap := st.meanAccDelayMap.set type (Dbl.fin 0)
      meanE2eDelayMap := st.meanE2eDelayMap.set type (Dbl.fin 0) }

/-- Lines 699-718: the mean delays of every category that has an entry in
`successMap`. -/
def meanMaps (r : Run) : MeanMaps :=
  (successMap r).keys.foldl (meanStep r) ⟨AcMap.empty, AcMap.empty, AcMap.empty⟩

/-! ## The reported values (lines 720-755) -/

/-- Lines 720-723: `sldSuccPr_BE` .. `sldSuccPr_VO`. -/
def sldSuccPr (r : Run) (type : AcIndex) : Dbl := (sldSuccPrMap r).get type

/-- The sum `successMap[AC_BE] + successMap[AC_BK] + successMap[AC_VI] +
successMap[AC_VO]` of lines 724, 739 and 748. -/
def successTotal (r : Run) : Nat :=
  (successMap r).get AcIndex.AC_BE + (successMap r).get AcIndex.AC_BK
    + (successMap r).get AcIndex.AC_VI + (successMap r).get AcIndex.AC_VO

/-- The sum `attemptMap[AC_BE] + attemptMap[AC_BK] + attemptMap[AC_VI] +
attemptMap[AC_VO]` of line 725. -/
def attemptTotal (r : Run) : Nat :=
  (attemptMap r).get AcIndex.AC_BE + (attemptMap r).get AcIndex.AC_BK
    + (attemptMap r).get AcIndex.AC_VI + (attemptMap r).get AcIndex.AC_VO

/-- Lines 724-725: `sldSuccPr_total`. -/
def sldSuccPr_total (r : Run) : Dbl :=
  Dbl.div (Dbl.fin (successTotal r)) (Dbl.fin (attemptTotal r))

/-- Lines 727-730: `sldThpt_BE` .. `sldThpt_VO`. -/
def sldThpt (r : Run) (type : AcIndex) : Dbl := (sldThptMap r).get type

/-- Line 731: `sldThpt_total`. -/
def sldThpt_total (r : Run) : Dbl :=
  Dbl.add (Dbl.add (Dbl.add (sldThpt r AcIndex.AC_BE) (sldThpt r AcIndex.AC_BK))
    (sldThpt r AcIndex.AC_VI)) (sldThpt r AcIndex.AC_VO)

/-- Lines 733-736: `sldMeanQueDelay_BE` .. `sldMeanQueDelay_VO`. -/
def sldMeanQueDelay (r : Run) (type : AcIndex) : Dbl := (meanMaps r).meanQueDelayMap.get type

/-- Lines 737-740: `sldMeanQueDelay_total`. -/
def sldMeanQueDelay_total (r : Run) : Dbl :=
  Dbl.div
    (Dbl.fin ((queDelayTotalMap r).get AcIndex.AC_BE + (queDelayTotalMap r).get AcIndex.AC_BK
      + (queDelayTotalMap r).get AcIndex.AC_VI + (queDelayTotalMap r).get AcIndex.AC_VO))
    (Dbl.fin (successTotal r))

/-- Lines 742-745: `sldMeanAccDelay_BE` .. `sldMeanAccDelay_VO`. -/
def sldMeanAccDelay (r : Run) (type : AcIndex) : Dbl := (meanMaps r).meanAccDelayMap.get type

/-- Lines 746-749: `sldMeanAccDelay_total`. -/
def sldMeanAccDelay_total (r : Run) : Dbl :=
  Dbl.div
    (Dbl.fin ((accDelayTotalMap r).get AcIndex.AC_BE + (accDelayTotalMap r).get AcIndex.AC_BK
      + (accDelayTotalMap r).get AcIndex.AC_VI + (accDelayTotalMap r).get AcIndex.AC_VO))
    (Dbl.fin (successTotal r))

/-- Lines 751-754: `sldMeanE2eDelay_BE` .. `sldMeanE2eDelay_VO`. -/
def sldMeanE2eDelay (r : Run) (type : AcIndex) : Dbl := (meanMaps r).meanE2eDelayMap.get type

/-- Line 755: `sldMeanE2eDelay_total`. -/
def sldMeanE2eDelay_total (r : Run) : Dbl :=
  Dbl.add (sldMeanQueDelay_total r) (sldMeanAccDelay_total r)

/-! ## Reference notions used to state the properties -/

/-- The series of station `i`: the record vectors of all its links. -/
def stationSeries (r : Run) (i : Nat) : List (List TxRecord) :=
  ((r.successInfo.lookup i).getD []).map (fun linkMap => linkMap.2)

/-- The stations of a category: the node ids `1 .. nSld` whose entry in
`acList` is that category. -/
def stationsOf (r : Run) (type : AcIndex) : List Nat :=
  (List.range' 1 r.nSld).filter (fun i => r.acList[i - 1]? = some type)

/-- All series of the stations of a category. -/
def categorySeries (r : Run) (type : AcIndex) : List (List TxRecord) :=
  (stationsOf r type).flatMap (stationSeries r)

/-- All records of the stations of a category, index 0 of each series
included. -/
def categoryRecords (r : Run) (type : AcIndex) : List TxRecord :=
  (categorySeries r type).flatten

/-- The retained records of a series: every record except index 0. -/
def retained (records : List TxRecord) : List TxRecord := records.drop 1

/-- The retained records of the stations of a category. -/
def categoryRetained (r : Run) (type : AcIndex) : List TxRecord :=
  ((categorySeries r type).map retained).flatten

/-- The value the HOL loop appends at index `i`. -/
def holAt (enq deq : List ℚ) (i : Nat) : ℚ :=
  if i = 0 then enq.getD i 0 else stdMax (enq.getD i 0) (deq.getD (i - 1) 0)

/-- The queuing-delay terms `hol[i] - enqueue[i]` that the delay loop adds to
`totalQueuingDelayPerNodeLink`, one per index of the erased vectors. -/
def queuingDelays (records : List TxRecord) : List ℚ :=
  (List.range (enqueueTimeMap records).length).map
    (fun i => (holTimeMap records).getD i 0 - (enqueueTimeMap records).getD i 0)

/-- The series of the worked example: enqueue `[0, 5, 40]`, completion
`[10, 20, 60]`. -/
def exampleSeries : List TxRecord := [⟨0, 10, 0⟩, ⟨5, 20, 0⟩, ⟨40, 60, 0⟩]

/-- A run with one best-effort station (node 1) whose only link carries the
example series; payload 1500 bytes, window 20 s. -/
def exampleRun : Run :=
  { acList := acList 0 1 0 0
    nSld := 1
    payloadSize := 1500
    simulationTime := 20
    successInfo := [(1, [(0, exampleSeries)])] }

/-- The default configuration (one BK, two BE, one VI, one VO station, 1500
bytes, 20 s) with a trace in which no station completed a packet. -/
def idleRun : Run :=
  { acList := acList 1 2 1 1
    nSld := 5
    payloadSize := 1500
    simulationTime := 20
    successInfo := [] }

/-- A run with one BK station (node 1) and one BE station (node 2): the BE
station has 2 successes after one failure each (4 attempts), the BK station
has 8 successes without failure (8 attempts). -/
def weightedRun : Run :=
  { acList := acList 1 1 0 0
    nSld := 2
    payloadSize := 1500
    simulationTime := 20
    successInfo :=
      [(1, [(0, (List.range 8).map
          (fun (i : Nat) => (⟨2 * (i : ℚ), 2 * (i : ℚ) + 1, 0⟩ : TxRecord)))]),
       (2, [(0, [⟨0, 3, 1⟩, ⟨4, 9, 1⟩])])] }

/-- A run with one best-effort station that completed 100 packets; payload
1500 bytes, window 20 s. -/
def throughputRun : Run :=
  { acList := acList 0 1 0 0
    nSld := 1
    payloadSize := 1500
    simulationTime := 20
    successInfo :=
      [(1, [(0, (List.range 100).map
          (fun (i : Nat) => (⟨(i : ℚ), (i : ℚ) + 1, 0⟩ : TxRecord)))])] }

/-! ## Configuration, station-class assignment and report line of `main` -/

/-- The command-line parameters of `main` (lines 126-190) that the check of
line 216, the station-class assignment and the report line read.  `nSld`,
`nBE`, `nBK`, `nVI`, `nVO` are `std::size_t` values (below `2 ^ 64`), the
`Cwmin` values are `uint64_t`. -/
structure Config where
  rngRun : Nat
  simulationTime : ℚ
  payloadSize : Nat
  mcs : Int
  channelWidth : Int
  nSld : Nat
  nBE : Nat
  nBK : Nat
  nVI : Nat
  nVO : Nat
  perSldLambda : ℚ
  acBECwmin : Nat
  acBECwStage : Nat
  acBKCwmin : Nat
  acBKCwStage : Nat
  acVICwmin : Nat
  acVICwStage : Nat
  acVOCwmin : Nat
  acVOCwStage : Nat

/-- The default values of lines 126-166. -/
def defaultConfig : Config :=
  { rngRun := 6
    simulationTime := 20
    payloadSize := 1500
    mcs := 6
    channelWidth := 20
    nSld := 5
    nBE := 2
    nBK := 1
    nVI := 1
    nVO := 1
    perSldLambda := 1 / 100000
    acBECwmin := 16
    acBECwStage := 6
    acBKCwmin := 16
    acBKCwStage := 6
    acVICwmin := 8
    acVICwStage := 4
    acVOCwmin := 4
    acVOCwStage := 2 }

/-- The condition of line 216, `nSld != (nBE + nBK + nVI + nVO)`, in
`std::size_t` arithmetic: the sum wraps at `2 ^ 64`. -/
def wrongNSld (cfg : Config) : Bool :=
  decide (cfg.nSld ≠ (cfg.nBE + cfg.nBK + cfg.nVI + cfg.nVO) % 2 ^ 64)

/-- One of the loops of lines 225-228, `for (uint32_t i = ..; i < n; ++i)
acList.push_back(ac)`, started at counter value `i`: the counter is a 32-bit
unsigned integer compared with the `std::size_t` bound `n`, so `++i` wraps at
`2 ^ 32`.  `none` when the fuel does not suffice. -/
def pushLoop (ac : AcIndex) (n : Nat) : Nat → Nat → List AcIndex → Option (List AcIndex)
  | 0, _, _ => none
  | fuel + 1, i, l =>
    if i < n then pushLoop ac n fuel ((i + 1) % 2 ^ 32) (l ++ [ac]) else some l

/-- Lines 223-228 with their machine counters: the four loops in the order BK,
BE, VI, VO, each with the given fuel. -/
def acListLoops (fuel : Nat) (cfg : Config) : Option (List AcIndex) :=
  (pushLoop AcIndex.AC_BK cfg.nBK fuel 0 []).bind (fun l1 =>
    (pushLoop AcIndex.AC_BE cfg.nBE fuel 0 l1).bind (fun l2 =>
      (pushLoop AcIndex.AC_VI cfg.nVI fuel 0 l2).bind (fun l3 =>
        pushLoop AcIndex.AC_VO cfg.nVO fuel 0 l3)))

/-- The numeric value of an access category, as printed by `+sldAcInt_BE`
.. `+sldAcInt_VO` (lines 797-800). -/
def AcIndex.toNat : AcIndex → Nat
  | AcIndex.AC_BE => 0
  | AcIndex.AC_BK => 1
  | AcIndex.AC_VI => 2
  | AcIndex.AC_VO => 3

/-- The statement `x -= 1` on a `uint64_t` (lines 205, 208, 211, 214). -/
def u64Dec (x : Nat) : Nat := (x + 2 ^ 64 - 1) % 2 ^ 64

/-- One comma-separated field of the report line: a computed `double`, a
`double` parameter, a signed or an unsigned integer. -/
inductive Field where
  | dbl (d : Dbl)
  | real (q : ℚ)
  | int (z : Int)
  | nat (n : Nat)
  deriving DecidableEq, Repr

/-- The run that the statistics code sees once the assignment `l` is built
and the engine has delivered the finalized trace. -/
def runOf (cfg : Config) (l : List AcIndex) (trace : SuccessInfo) : Run :=
  { acList := l
    nSld := cfg.nSld
    payloadSize := cfg.payloadSize
    simulationTime := cfg.simulationTime
    successInfo := trace }

/-- Lines 759-808: the fields written to the summary file, in the order of
the `<<` chain (`printTxStatsSingleLine` is `true`). -/
def reportRow (cfg : Config) (r : Run) : List Field :=
  [ Field.dbl (sldSuccPr r AcIndex.AC_BE),
    Field.dbl (sldSuccPr r AcIndex.AC_BK),
    Field.dbl (sldSuccPr r AcIndex.AC_VI),
    Field.dbl (sldSuccPr r AcIndex.AC_VO),
    Field.dbl (sldSuccPr_total r),
    Field.dbl (sldThpt r AcIndex.AC_BE),
    Field.dbl (sldThpt r AcIndex.AC_BK),
    Field.dbl (sldThpt r AcIndex.AC_VI),
    Field.dbl (sldThpt r AcIndex.AC_VO),
    Field.dbl (sldThpt_total r),
    Field.dbl (sldMeanQueDelay r AcIndex.AC_BE),
    Field.dbl (sldMeanQueDelay r AcIndex.AC_BK),
    Field.dbl (sldMeanQueDelay r AcIndex.AC_VI),
    Field.dbl (sldMeanQueDelay r AcIndex.AC_VO),
    Field.dbl (sldMeanQueDelay_total r),
    Field.dbl (sldMeanAccDelay r AcIndex.AC_BE),
    Field.dbl (sldMeanAccDelay r AcIndex.AC_BK),
    Field.dbl (sldMeanAccDelay r AcIndex.AC_VI),
    Field.dbl (sldMeanAccDelay r AcIndex.AC_VO),
    Field.dbl (sldMeanAccDelay_total r),
    Field.dbl (sldMeanE2eDelay r AcIndex.AC_BE),
    Field.dbl (sldMeanE2eDelay r AcIndex.AC_BK),
    Field.dbl (sldMeanE2eDelay r AcIndex.AC_VI),
    Field.dbl (sldMeanE2eDelay r AcIndex.AC_VO),
    Field.dbl (sldMeanE2eDelay_total r),
    Field.nat cfg.rngRun,
    Field.real cfg.simulationTime,
    Field.nat cfg.payloadSize,
    Field.int cfg.mcs,
    Field.int cfg.channelWidth,
    Field.nat cfg.nSld,
    Field.real cfg.perSldLambda,
    Field.nat AcIndex.AC_BE.toNat,
    Field.nat AcIndex.AC_BK.toNat,
    Field.nat AcIndex.AC_VI.toNat,
    Field.nat AcIndex.AC_VO.toNat,
    Field.nat (u64Dec cfg.acBECwmin),
    Field.nat cfg.acBECwStage,
    Field.nat (u64Dec cfg.acBKCwmin),
    Field.nat cfg.acBKCwStage,
    Field.nat (u64Dec cfg.acVICwmin),
    Field.nat cfg.acVICwStage,
    Field.nat (u64Dec cfg.acVOCwmin),
    Field.nat cfg.acVOCwStage ]

/-- How `main` ends: at line 219 after printing `wrong nSld parameter`, with
nothing built and nothing written to the summary file, or at line 812 after
writing one report line for the assignment `acList`. -/
inductive Outcome where
  | wrongNSldParameter
  | reported (acList : List AcIndex) (row : List Field)
  deriving DecidableEq, Repr

/-- The control flow of `main` around the statistics code: the check of lines
216-220, the assignment loops of lines 223-228, then (the frequency band is
the constant 5, so line 296 is not reached) the simulation, whose finalized
trace is `trace`, the aggregation and the report line.  The station loops of
lines 399, 439, 452, 615 and 680 count with a `uint32_t` up to `nSld`
(`1 + nSld`) and end only when `nSld < 2 ^ 32 - 1`.  `none` stands for a run
that does not reach a `return` with the given fuel.  The outcome is that of
the source for traces that satisfy `seriesNonEmpty`; the undefined behaviour
of the erase on an empty series is not represented. -/
def main (fuel : Nat) (cfg : Config) (trace : SuccessInfo) : Option Outcome :=
  if wrongNSld cfg then some Outcome.wrongNSldParameter
  else
    match acListLoops fuel cfg with
    | none => none
    | some l =>
      if cfg.nSld < 2 ^ 32 - 1 then some (Outcome.reported l (reportRow cfg (runOf cfg l trace)))
      else none

/-- The 25 statistics of the report line (lines 760-788), in the order they
are written. -/
def stats (r : Run) : List Dbl :=
  [ sldSuccPr r AcIndex.AC_BE, sldSuccPr r AcIndex.AC_BK, sldSuccPr r AcIndex.AC_VI,
    sldSuccPr r AcIndex.AC_VO, sldSuccPr_total r,
    sldThpt r AcIndex.AC_BE, sldThpt r AcIndex.AC_BK, sldThpt r AcIndex.AC_VI,
    sldThpt r AcIndex.AC_VO, sldThpt_total r,
    sldMeanQueDelay r AcIndex.AC_BE, sldMeanQueDelay r AcIndex.AC_BK,
    sldMeanQueDelay r AcIndex.AC_VI, sldMeanQueDelay r AcIndex.AC_VO, sldMeanQueDelay_total r,
    sldMeanAccDelay r AcIndex.AC_BE, sldMeanAccDelay r AcIndex.AC_BK,
    sldMeanAccDelay r AcIndex.AC_VI, sldMeanAccDelay r AcIndex.AC_VO, sldMeanAccDelay_total r,
    sldMeanE2eDelay r AcIndex.AC_BE, sldMeanE2eDelay r AcIndex.AC_BK,
    sldMeanE2eDelay r AcIndex.AC_VI, sldMeanE2eDelay r AcIndex.AC_VO, sldMeanE2eDelay_total r ]

/-- A series in which every record completes no earlier than it was enqueued
and completion times do not decrease along the series. -/
def seriesOrdered (records : List TxRecord) : Bool :=
  records.all (fun c => decide (c.m_enqueueMs ≤ c.m_dequeueMs))
    && (records.zip records.tail).all (fun p => decide (p.1.m_dequeueMs ≤ p.2.m_dequeueMs))

/-- The order of the categories within each group of the report line. -/
def categoryOrder : List AcIndex :=
  [AcIndex.AC_BE, AcIndex.AC_BK, AcIndex.AC_VI, AcIndex.AC_VO]

/-- The per-category value of group `g` of the report line: success
probability, throughput, mean queuing, mean access, mean end-to-end delay. -/
def groupValue (r : Run) (g : Nat) (k : AcIndex) : Dbl :=
  match g with
  | 0 => sldSuccPr r k
  | 1 => sldThpt r k
  | 2 => sldMeanQueDelay r k
  | 3 => sldMeanAccDelay r k
  | _ => sldMeanE2eDelay r k

/-- The total value of group `g` of the report line. -/
def groupTotal (r : Run) (g : Nat) : Dbl :=
  match g with
  | 0 => sldSuccPr_total r
  | 1 => sldThpt_total r
  | 2 => sldMeanQueDelay_total r
  | 3 => sldMeanAccDelay_total r
  | _ => sldMeanE2eDelay_total r

/-- The default configuration with a station count that contradicts the
per-category counts (4 instead of 2 + 1 + 1 + 1). -/
def mismatchConfig : Config := { defaultConfig with nSld := 4 }

/-- A configuration whose per-category sum wraps at `2 ^ 64`: no station
announced, `2 ^ 63` BE stations and `2 ^ 63` BK stations. -/
def wrapConfig : Config :=
  { defaultConfig with nSld := 0, nBE := 2 ^ 63, nBK := 2 ^ 63, nVI := 0, nVO := 0 }

/-- The example run with two more entries in the trace: records of node 0
(the AP) and of node 7, which is no station of the run. -/
def noisyRun : Run :=
  { exampleRun with
    successInfo :=
      [(0, [(0, [⟨1, 2, 3⟩])]), (1, [(0, exampleSeries)]), (7, [(0, [⟨0, 50, 2⟩, ⟨3, 70, 1⟩])])] }

/-- The trace restricted to the node ids `1 .. nSld` of the stations. -/
def stationTrace (r : Run) : SuccessInfo :=
  r.successInfo.filter (fun nodeMap => decide (1 ≤ nodeMap.1 ∧ nodeMap.1 ≤ r.nSld))

/-! ## Lemmas on the loops -/

theorem stdMax_eq_max (a b : ℚ) : stdMax a b = max a b := by
  unfold stdMax
  split
  · rename_i h; exact (max_eq_right (le_of_lt h)).symm
  · rename_i h; exact (max_eq_left (not_lt.mp h)).symm

theorem foldl_push {α β : Type} (g : β → α) (l : List β) (init : List α) :
    l.foldl (fun acc i => acc ++ [g i]) init = init ++ l.map g := by
  induction l generalizing init with
  | nil => simp
  | cons x xs ih => simp [ih]

theorem holTimes_eq (enq deq : List ℚ) :
    holTimes enq deq = (List.range enq.length).map (holAt enq deq) := by
  have hstep : (fun (hol : List ℚ) (i : Nat) =>
      if i = 0 then hol ++ [enq.getD i 0]
      else hol ++ [stdMax (enq.getD i 0) (deq.getD (i - 1) 0)])
      = fun hol i => hol ++ [holAt enq deq i] := by
    funext hol i
    unfold holAt
    split <;> rfl
  unfold holTimes
  rw [hstep, foldl_push]
  simp

theorem holTimes_length (enq deq : List ℚ) : (holTimes enq deq).length = enq.length := by
  simp [holTimes_eq]

theorem holTimes_getElem? (enq deq : List ℚ) (i : Nat) (hi : i < enq.length) :
    (holTimes enq deq)[i]? = some (holAt enq deq i) := by
  simp [holTimes_eq, List.getElem?_map, List.getElem?_range hi]

theorem enqueueTimes_getD (records : List TxRecord) (i : Nat) (cur : TxRecord)
    (hc : records[i]? = some cur) : (enqueueTimes records).getD i 0 = cur.m_enqueueMs := by
  simp [enqueueTimes, List.getD_eq_getElem?_getD, List.getElem?_map, hc]

theorem dequeueTimes_getD (records : List TxRecord) (i : Nat) (cur : TxRecord)
    (hc : records[i]? = some cur) : (dequeueTimes records).getD i 0 = cur.m_dequeueMs := by
  simp [dequeueTimes, List.getD_eq_getElem?_getD, List.getElem?_map, hc]

theorem lt_length_of_getElem? {α : Type} (l : List α) (i : Nat) (a : α)
    (h : l[i]? = some a) : i < l.length := by
  by_contra hn
  rw [List.getElem?_eq_none (not_lt.mp hn)] at h
  exact Option.noConfusion h

theorem holAt_succ (records : List TxRecord) (j : Nat) (prev cur : TxRecord)
    (hp : records[j]? = some prev) (hc : records[j + 1]? = some cur) :
    holAt (enqueueTimes records) (dequeueTimes records) (j + 1)
      = max cur.m_enqueueMs prev.m_dequeueMs := by
  unfold holAt
  rw [if_neg (Nat.succ_ne_zero j), stdMax_eq_max, enqueueTimes_getD records (j + 1) cur hc]
  simp only [Nat.add_sub_cancel]
  rw [dequeueTimes_getD records j prev hp]

theorem holTimeMap_getElem? (records : List TxRecord) (j : Nat) (prev cur : TxRecord)
    (hp : records[j]? = some prev) (hc : records[j + 1]? = some cur) :
    (holTimeMap records)[j]? = some (max cur.m_enqueueMs prev.m_dequeueMs) := by
  have hlen : j + 1 < (enqueueTimes records).length := by
    have := lt_length_of_getElem? records (j + 1) cur hc
    simpa [enqueueTimes] using this
  unfold holTimeMap eraseBegin
  rw [List.eraseIdx_zero, List.getElem?_tail, holTimes_getElem? _ _ _ hlen,
    holAt_succ records j prev cur hp hc]

theorem foldl_additive {S X A : Type} [AddMonoid A] (φ : S → A) (f : S → X → S) (w : X → A)
    (h : ∀ s x, φ (f s x) = φ s + w x) (l : List X) (s : S) :
    φ (l.foldl f s) = φ s + (l.map w).sum := by
  induction l generalizing s with
  | nil => simp
  | cons x xs ih => simp [ih, h, add_assoc]

theorem foldl_appends {S X α : Type} (φ : S → List α) (f : S → X → S) (g : X → α)
    (h : ∀ s x, φ (f s x) = φ s ++ [g x]) (l : List X) (s : S) :
    φ (l.foldl f s) = φ s ++ l.map g := by
  induction l generalizing s with
  | nil => simp
  | cons x xs ih => simp [ih, h]

theorem foldl_preserves {S X : Type} (P : S → Prop) (f : S → X → S)
    (h : ∀ s x, P s → P (f s x)) (l : List X) (s : S) (hs : P s) : P (l.foldl f s) := by
  induction l generalizing s with
  | nil => simpa using hs
  | cons x xs ih => exact ih (f s x) (h s x hs)

theorem enqueueTimeMap_length (records : List TxRecord) :
    (enqueueTimeMap records).length = records.length - 1 := by
  simp [enqueueTimeMap, eraseBegin, enqueueTimes]

theorem dequeueTimeMap_length (records : List TxRecord) :
    (dequeueTimeMap records).length = records.length - 1 := by
  simp [dequeueTimeMap, eraseBegin, dequeueTimes]

theorem holTimeMap_length (records : List TxRecord) :
    (holTimeMap records).length = records.length - 1 := by
  simp [holTimeMap, eraseBegin, holTimes_length, enqueueTimes]

theorem enqueueTimeMap_getD (records : List TxRecord) (j : Nat) (cur : TxRecord)
    (hc : records[j + 1]? = some cur) : (enqueueTimeMap records).getD j 0 = cur.m_enqueueMs := by
  simp [enqueueTimeMap, eraseBegin, enqueueTimes, List.getD_eq_getElem?_getD, hc]

theorem dequeueTimeMap_getD (records : List TxRecord) (j : Nat) (cur : TxRecord)
    (hc : records[j + 1]? = some cur) : (dequeueTimeMap records).getD j 0 = cur.m_dequeueMs := by
  simp [dequeueTimeMap, eraseBegin, dequeueTimes, List.getD_eq_getElem?_getD, hc]

theorem holTimeMap_getD (records : List TxRecord) (j : Nat) (prev cur : TxRecord)
    (hp : records[j]? = some prev) (hc : records[j + 1]? = some cur) :
    (holTimeMap records).getD j 0 = max cur.m_enqueueMs prev.m_dequeueMs := by
  rw [List.getD_eq_getElem?_getD, holTimeMap_getElem? records j prev cur hp hc]
  rfl

theorem linkDelays_totalQueuingDelay (records : List TxRecord) :
    (linkDelays records).totalQueuingDelay = (queuingDelays records).sum := by
  unfold linkDelays delayLoop queuingDelays
  refine (foldl_additive (fun st : LinkDelays => st.totalQueuingDelay)
    (delayStep (enqueueTimeMap records) (dequeueTimeMap records) (holTimeMap records))
    (fun i => (holTimeMap records).getD i 0 - (enqueueTimeMap records).getD i 0)
    (fun s x => rfl) _ _).trans ?_
  simp

theorem linkDelays_accessDelays (records : List TxRecord) :
    (linkDelays records).accessDelays
      = (List.range (enqueueTimeMap records).length).map
          (fun i => (dequeueTimeMap records).getD i 0 - (holTimeMap records).getD i 0) := by
  unfold linkDelays delayLoop
  refine (foldl_appends (fun st : LinkDelays => st.accessDelays)
    (delayStep (enqueueTimeMap records) (dequeueTimeMap records) (holTimeMap records))
    (fun i => (dequeueTimeMap records).getD i 0 - (holTimeMap records).getD i 0)
    (fun s x => rfl) _ _).trans ?_
  simp

theorem linkDelays_e2eDelays (records : List TxRecord) :
    (linkDelays records).e2eDelays
      = (List.range (enqueueTimeMap records).length).map
          (fun i => (dequeueTimeMap records).getD i 0 - (enqueueTimeMap records).getD i 0) := by
  unfold linkDelays delayLoop
  refine (foldl_appends (fun st : LinkDelays => st.e2eDelays)
    (delayStep (enqueueTimeMap records) (dequeueTimeMap records) (holTimeMap records))
    (fun i => (dequeueTimeMap records).getD i 0 - (enqueueTimeMap records).getD i 0)
    (fun s x => rfl) _ _).trans ?_
  simp

theorem linkDelays_totalAccessDelay (records : List TxRecord) :
    (linkDelays records).totalAccessDelay = (linkDelays records).accessDelays.sum := by
  rw [linkDelays_accessDelays]
  unfold linkDelays delayLoop
  refine (foldl_additive (fun st : LinkDelays => st.totalAccessDelay)
    (delayStep (enqueueTimeMap records) (dequeueTimeMap records) (holTimeMap records))
    (fun i => (dequeueTimeMap records).getD i 0 - (holTimeMap records).getD i 0)
    (fun s x => rfl) _ _).trans ?_
  simp

theorem linkDelays_total_sum (records : List TxRecord) :
    (linkDelays records).totalQueuingDelay + (linkDelays records).totalAccessDelay
      = (linkDelays records).e2eDelays.sum := by
  rw [linkDelays_totalQueuingDelay, linkDelays_totalAccessDelay, linkDelays_accessDelays,
    linkDelays_e2eDelays]
  unfold queuingDelays
  rw [← List.sum_map_add]
  congr 1
  apply List.map_congr_left
  intro i _
  ring

theorem e2eDelays_eq_retained (records : List TxRecord) :
    (linkDelays records).e2eDelays
      = (retained records).map (fun c => c.m_dequeueMs - c.m_enqueueMs) := by
  rw [linkDelays_e2eDelays]
  apply List.ext_getElem?
  intro j
  by_cases hj : j + 1 < records.length
  · have hc : records[j + 1]? = some (records.get ⟨j + 1, hj⟩) := by
      simp [List.getElem?_eq_getElem hj]
    have hj2 : j < (enqueueTimeMap records).length := by
      rw [enqueueTimeMap_length]; omega
    rw [List.getElem?_map, List.getElem?_range hj2]
    simp only [Option.map_some']
    rw [enqueueTimeMap_getD records j _ hc, dequeueTimeMap_getD records j _ hc]
    simp [retained, List.getElem?_map, List.getElem?_drop, Nat.add_comm 1 j, hc]
  · have h1 : (enqueueTimeMap records).length ≤ j := by
      rw [enqueueTimeMap_length]; omega
    have h2 : (retained records).length ≤ j := by
      simp [retained]; omega
    rw [List.getElem?_eq_none, List.getElem?_eq_none]
    · simpa using h2
    · simpa using h1

theorem AcMap.get_empty {α : Type} [Zero α] (k : AcIndex) : (AcMap.empty : AcMap α).get k = 0 := rfl

theorem AcMap.get_add {α : Type} [AddMonoid α] (m : AcMap α) (type k : AcIndex) (v : α) :
    (m.add type v).get k = m.get k + (if k = type then v else 0) := by
  unfold AcMap.add AcMap.set AcMap.get
  by_cases h : k = type
  · subst h; simp
  · simp [h]

theorem sum_map_ite_flatMap {β A : Type} [AddMonoid A] (p : Nat → Prop) [DecidablePred p]
    (F : Nat → List β) (w : β → A) (l : List Nat) :
    (l.map (fun i => if p i then ((F i).map w).sum else 0)).sum
      = (((l.filter (fun i => decide (p i))).flatMap F).map w).sum := by
  induction l with
  | nil => simp
  | cons x xs ih =>
    by_cases hx : p x
    · simp [List.filter_cons, hx, ih, List.flatMap_cons]
    · simp [List.filter_cons, hx, ih]

theorem lookup_map_snd {β γ : Type} (g : β → γ) (l : List (Nat × β)) (i : Nat) :
    (l.map (fun e => (e.1, g e.2))).lookup i = (l.lookup i).map g := by
  induction l with
  | nil => simp
  | cons x xs ih =>
    obtain ⟨k, b⟩ := x
    simp only [List.map_cons, List.lookup_cons]
    cases h : (i == k) <;> simp [ih]

/-- The success counter of one category grows, at station `i`, by the number
of records of the station when the station belongs to the category. -/
theorem countNode_successMap (r : Run) (st : Counts) (i : Nat) (k : AcIndex) :
    (countNode r st i).successMap.get k = st.successMap.get k
      + (if r.acList[i - 1]? = some k then ((stationSeries r i).map List.length).sum else 0) := by
  unfold countNode stationSeries
  cases hac : r.acList[i - 1]? with
  | none => simp
  | some type =>
    simp only []
    rw [foldl_additive (fun st : Counts => st.successMap.get k) _
      (fun records : Nat × List TxRecord => if k = type then records.2.length else 0)]
    · by_cases hk : k = type
      · subst hk; simp [Function.comp_def]
      · have : ¬ type = k := fun h => hk h.symm
        simp [hk, this]
    · intro s records
      rw [foldl_additive (fun st : Counts => st.successMap.get k) (countPkt type)
        (fun _ => if k = type then 1 else 0)]
      · by_cases hk : k = type
        · simp [hk]
        · simp [hk]
      · intro s pkt
        simp [countPkt, AcMap.get_add]

/-- The attempt counter of one category grows, at station `i`, by
`1 + m_failures` for each record of the station when the station belongs to
the category. -/
theorem countNode_attemptMap (r : Run) (st : Counts) (i : Nat) (k : AcIndex) :
    (countNode r st i).attemptMap.get k = st.attemptMap.get k
      + (if r.acList[i - 1]? = some k then
          ((stationSeries r i).map (fun s => (s.map (fun pkt => 1 + pkt.m_failures)).sum)).sum
         else 0) := by
  unfold countNode stationSeries
  cases hac : r.acList[i - 1]? with
  | none => simp
  | some type =>
    simp only []
    rw [foldl_additive (fun st : Counts => st.attemptMap.get k) _
      (fun records : Nat × List TxRecord =>
        if k = type then (records.2.map (fun pkt => 1 + pkt.m_failures)).sum else 0)]
    · by_cases hk : k = type
      · subst hk; simp [Function.comp_def]
      · have : ¬ type = k := fun h => hk h.symm
        simp [hk, this]
    · intro s records
      rw [foldl_additive (fun st : Counts => st.attemptMap.get k) (countPkt type)
        (fun pkt => if k = type then 1 + pkt.m_failures else 0)]
      · by_cases hk : k = type
        · simp [hk]
        · simp [hk]
      · intro s pkt
        simp [countPkt, AcMap.get_add]

theorem successMap_get (r : Run) (k : AcIndex) :
    (successMap r).get k = ((categorySeries r k).map List.length).sum := by
  unfold successMap countLoop categorySeries stationsOf
  rw [foldl_additive (fun st : Counts => st.successMap.get k) (countNode r) _
    (fun s i => countNode_successMap r s i k)]
  rw [sum_map_ite_flatMap]
  simp [AcMap.get_empty]

theorem attemptMap_get (r : Run) (k : AcIndex) :
    (attemptMap r).get k
      = ((categorySeries r k).map (fun s => (s.map (fun pkt => 1 + pkt.m_failures)).sum)).sum := by
  unfold attemptMap countLoop categorySeries stationsOf
  rw [foldl_additive (fun st : Counts => st.attemptMap.get k) (countNode r) _
    (fun s i => countNode_attemptMap r s i k)]
  rw [sum_map_ite_flatMap]
  simp [AcMap.get_empty]

theorem countPkt_ne_zero (type : AcIndex) (st : Counts) (pkt : TxRecord)
    (h : ∀ k, st.successMap k ≠ some 0) : ∀ k, (countPkt type st pkt).successMap k ≠ some 0 := by
  intro k
  unfold countPkt AcMap.add AcMap.set
  by_cases hk : k = type
  · simp [hk]
  · simpa [hk] using h k

theorem countNode_ne_zero (r : Run) (st : Counts) (i : Nat)
    (h : ∀ k, st.successMap k ≠ some 0) : ∀ k, (countNode r st i).successMap k ≠ some 0 := by
  unfold countNode
  cases r.acList[i - 1]? with
  | none => simpa using h
  | some type =>
    simp only []
    apply foldl_preserves (fun st : Counts => ∀ k, st.successMap k ≠ some 0) _ _ _ _ h
    intro s records hs
    exact foldl_preserves (fun st : Counts => ∀ k, st.successMap k ≠ some 0) _
      (fun s pkt hs => countPkt_ne_zero type s pkt hs) _ _ hs

theorem successMap_ne_zero (r : Run) (k : AcIndex) : successMap r k ≠ some 0 := by
  unfold successMap countLoop
  apply foldl_preserves (fun st : Counts => ∀ k, st.successMap k ≠ some 0) _
    (fun s i hs => countNode_ne_zero r s i hs)
  intro k
  simp [AcMap.empty]

/-- A category has an entry in `successMap` exactly when its count is
positive. -/
theorem successMap_isSome (r : Run) (k : AcIndex) :
    (successMap r k).isSome = true ↔ 0 < (successMap r).get k := by
  have h := successMap_ne_zero r k
  unfold AcMap.get
  cases hm : successMap r k with
  | none => simp
  | some v =>
    rw [hm] at h
    have : v ≠ 0 := fun hv => h (by rw [hv])
    simp
    omega

theorem mem_keys {α : Type} (m : AcMap α) (k : AcIndex) :
    k ∈ m.keys ↔ (m k).isSome = true := by
  unfold AcMap.keys
  cases k <;> simp

theorem foldl_set {α : Type} (F : AcIndex → α) (l : List AcIndex) (init : AcMap α)
    (k : AcIndex) :
    (l.foldl (fun m type => m.set type (F type)) init) k
      = if k ∈ l then some (F k) else init k := by
  induction l generalizing init with
  | nil => simp
  | cons x xs ih =>
    rw [List.foldl_cons, ih]
    by_cases hk : k ∈ xs
    · simp [hk]
    · by_cases hx : k = x
      · subst hx; simp [hk, AcMap.set]
      · simp [hk, hx, AcMap.set]

/-- Reading a map that was filled for the keys of `successMap`. -/
theorem get_foldl_set (r : Run) (F : AcIndex → Dbl) (k : AcIndex) :
    (((successMap r).keys.foldl (fun m type => m.set type (F type)) AcMap.empty).get k)
      = if 0 < (successMap r).get k then F k else Dbl.fin 0 := by
  have h := successMap_isSome r k
  have hk := mem_keys (successMap r) k
  unfold AcMap.get at *
  rw [foldl_set]
  by_cases hs : (successMap r k).isSome = true
  · rw [if_pos (hk.mpr hs), if_pos (h.mp hs)]; rfl
  · rw [if_neg (fun hp => hs (hk.mp hp)), if_neg (fun hp => hs (h.mpr hp))]; rfl

theorem sldSuccPr_eq (r : Run) (k : AcIndex) :
    sldSuccPr r k
      = if 0 < (successMap r).get k then
          (if (attemptMap r).get k > 0 then
            Dbl.div (Dbl.fin ((successMap r).get k)) (Dbl.fin ((attemptMap r).get k))
           else Dbl.fin 0)
        else Dbl.fin 0 := by
  unfold sldSuccPr sldSuccPrMap
  exact get_foldl_set r _ k

theorem sldThpt_eq (r : Run) (k : AcIndex) :
    sldThpt r k
      = if 0 < (successMap r).get k then
          Dbl.div
            (Dbl.div (Dbl.fin (((successMap r).get k : ℚ) * r.payloadSize * 8))
              (Dbl.fin r.simulationTime))
            (Dbl.fin 1000000)
        else Dbl.fin 0 := by
  unfold sldThpt sldThptMap
  exact get_foldl_set r _ k

/-- The value `meanStep` stores in `meanQueDelayMap`. -/
theorem meanMaps_que (r : Run) (l : List AcIndex) (st : MeanMaps) :
    (l.foldl (meanStep r) st).meanQueDelayMap
      = l.foldl (fun m type => m.set type
          (if (successMap r).get type > 0 then
            Dbl.div (Dbl.fin ((queDelayTotalMap r).get type)) (Dbl.fin ((successMap r).get type))
           else Dbl.fin 0)) st.meanQueDelayMap := by
  induction l generalizing st with
  | nil => rfl
  | cons x xs ih =>
    rw [List.foldl_cons, List.foldl_cons, ih]
    congr 1
    unfold meanStep
    by_cases h : (successMap r).get x > 0 <;> simp [h]

theorem meanMaps_acc (r : Run) (l : List AcIndex) (st : MeanMaps) :
    (l.foldl (meanStep r) st).meanAccDelayMap
      = l.foldl (fun m type => m.set type
          (if (successMap r).get type > 0 then
            Dbl.div (Dbl.fin ((accDelayTotalMap r).get type)) (Dbl.fin ((successMap r).get type))
           else Dbl.fin 0)) st.meanAccDelayMap := by
  induction l generalizing st with
  | nil => rfl
  | cons x xs ih =>
    rw [List.foldl_cons, List.foldl_cons, ih]
    congr 1
    unfold meanStep
    by_cases h : (successMap r).get x > 0 <;> simp [h]

theorem meanMaps_e2e (r : Run) (l : List AcIndex) (st : MeanMaps) :
    (l.foldl (meanStep r) st).meanE2eDelayMap
      = l.foldl (fun m type => m.set type
          (if (successMap r).get type > 0 then
            Dbl.add
              (Dbl.div (Dbl.fin ((queDelayTotalMap r).get type))
                (Dbl.fin ((successMap r).get type)))
              (Dbl.div (Dbl.fin ((accDelayTotalMap r).get type))
                (Dbl.fin ((successMap r).get type)))
           else Dbl.fin 0)) st.meanE2eDelayMap := by
  induction l generalizing st with
  | nil => rfl
  | cons x xs ih =>
    rw [List.foldl_cons, List.foldl_cons, ih]
    congr 1
    unfold meanStep
    by_cases h : (successMap r).get x > 0 <;> simp [h]

theorem Dbl.div_fin (a b : ℚ) (hb : b ≠ 0) : Dbl.div (Dbl.fin a) (Dbl.fin b) = Dbl.fin (a / b) := by
  simp [Dbl.div, hb]

theorem Dbl.div_zero (a : ℚ) : Dbl.div (Dbl.fin a) (Dbl.fin 0) = Dbl.undef := by
  simp [Dbl.div]

theorem sldMeanQueDelay_eq (r : Run) (k : AcIndex) :
    sldMeanQueDelay r k
      = if 0 < (successMap r).get k then
          Dbl.fin ((queDelayTotalMap r).get k / (successMap r).get k)
        else Dbl.fin 0 := by
  unfold sldMeanQueDelay meanMaps
  rw [meanMaps_que, get_foldl_set]
  by_cases h : 0 < (successMap r).get k
  · have hq : ((successMap r).get k : ℚ) ≠ 0 := by exact_mod_cast (Nat.pos_iff_ne_zero.mp h)
    simp only [h, gt_iff_lt, if_true]
    rw [Dbl.div_fin _ _ hq]
  · simp [h]

theorem sldMeanAccDelay_eq (r : Run) (k : AcIndex) :
    sldMeanAccDelay r k
      = if 0 < (successMap r).get k then
          Dbl.fin ((accDelayTotalMap r).get k / (successMap r).get k)
        else Dbl.fin 0 := by
  unfold sldMeanAccDelay meanMaps
  rw [meanMaps_acc, get_foldl_set]
  by_cases h : 0 < (successMap r).get k
  · have hq : ((successMap r).get k : ℚ) ≠ 0 := by exact_mod_cast (Nat.pos_iff_ne_zero.mp h)
    simp only [h, gt_iff_lt, if_true]
    rw [Dbl.div_fin _ _ hq]
  · simp [h]

theorem sldMeanE2eDelay_eq (r : Run) (k : AcIndex) :
    sldMeanE2eDelay r k
      = if 0 < (successMap r).get k then
          Dbl.fin ((queDelayTotalMap r).get k / (successMap r).get k
            + (accDelayTotalMap r).get k / (successMap r).get k)
        else Dbl.fin 0 := by
  unfold sldMeanE2eDelay meanMaps
  rw [meanMaps_e2e, get_foldl_set]
  by_cases h : 0 < (successMap r).get k
  · have hq : ((successMap r).get k : ℚ) ≠ 0 := by exact_mod_cast (Nat.pos_iff_ne_zero.mp h)
    simp only [h, gt_iff_lt, if_true]
    rw [Dbl.div_fin _ _ hq, Dbl.div_fin _ _ hq]
    rfl
  · simp [h]

/-- The queuing-delay total of one category grows, at station `i`, by the
per-link totals of the station when the station belongs to the category. -/
theorem delayNode_que (r : Run) (st : DelayTotals) (i : Nat) (k : AcIndex) :
    (delayNode r st i).queDelayTotalMap.get k = st.queDelayTotalMap.get k
      + (if r.acList[i - 1]? = some k then
          ((stationSeries r i).map (fun s => (linkDelays s).totalQueuingDelay)).sum
         else 0) := by
  unfold delayNode stationSeries totalQueuingDelayPerNodeLink totalAccessDelayPerNodeLink
  cases hac : r.acList[i - 1]? with
  | none => simp
  | some type =>
    simp only []
    rw [foldl_additive (fun st : DelayTotals => st.queDelayTotalMap.get k) _
      (fun _ => (0 : ℚ)) (fun s x => by simp)]
    rw [foldl_additive (fun st : DelayTotals => st.queDelayTotalMap.get k) _
      (fun item : Nat × ℚ => if k = type then item.2 else 0)
      (fun s x => by simp [AcMap.get_add])]
    rw [lookup_map_snd]
    by_cases hk : k = type
    · subst hk
      cases r.successInfo.lookup i <;> simp [Function.comp_def]
    · have : ¬ type = k := fun h => hk h.symm
      simp [hk, this]

theorem delayNode_acc (r : Run) (st : DelayTotals) (i : Nat) (k : AcIndex) :
    (delayNode r st i).accDelayTotalMap.get k = st.accDelayTotalMap.get k
      + (if r.acList[i - 1]? = some k then
          ((stationSeries r i).map (fun s => (linkDelays s).totalAccessDelay)).sum
         else 0) := by
  unfold delayNode stationSeries totalQueuingDelayPerNodeLink totalAccessDelayPerNodeLink
  cases hac : r.acList[i - 1]? with
  | none => simp
  | some type =>
    simp only []
    rw [foldl_additive (fun st : DelayTotals => st.accDelayTotalMap.get k) _
      (fun item : Nat × ℚ => if k = type then item.2 else 0)
      (fun s x => by simp [AcMap.get_add])]
    rw [foldl_additive (fun st : DelayTotals => st.accDelayTotalMap.get k) _
      (fun _ => (0 : ℚ)) (fun s x => by simp)]
    simp only [lookup_map_snd]
    by_cases hk : k = type
    · subst hk
      cases r.successInfo.lookup i <;> simp [Function.comp_def]
    · have : ¬ type = k := fun h => hk h.symm
      simp [hk, this]

theorem queDelayTotalMap_get (r : Run) (k : AcIndex) :
    (queDelayTotalMap r).get k
      = ((categorySeries r k).map (fun s => (linkDelays s).totalQueuingDelay)).sum := by
  unfold queDelayTotalMap delayTotals categorySeries stationsOf
  rw [foldl_additive (fun st : DelayTotals => st.queDelayTotalMap.get k) (delayNode r) _
    (fun s i => delayNode_que r s i k)]
  rw [sum_map_ite_flatMap]
  simp [AcMap.get_empty]

theorem accDelayTotalMap_get (r : Run) (k : AcIndex) :
    (accDelayTotalMap r).get k
      = ((categorySeries r k).map (fun s => (linkDelays s).totalAccessDelay)).sum := by
  unfold accDelayTotalMap delayTotals categorySeries stationsOf
  rw [foldl_additive (fun st : DelayTotals => st.accDelayTotalMap.get k) (delayNode r) _
    (fun s i => delayNode_acc r s i k)]
  rw [sum_map_ite_flatMap]
  simp [AcMap.get_empty]

theorem exampleSeries_enq : enqueueTimeMap exampleSeries = [5, 40] := by decide

theorem exampleSeries_deq : dequeueTimeMap exampleSeries = [20, 60] := by decide

theorem exampleSeries_hol : holTimeMap exampleSeries = [10, 40] := by decide

theorem categoryRecords_length (r : Run) (k : AcIndex) :
    (categoryRecords r k).length = ((categorySeries r k).map List.length).sum := by
  unfold categoryRecords
  exact List.length_flatten _

theorem sum_attempts_series (s : List TxRecord) :
    (s.map (fun pkt => 1 + pkt.m_failures)).sum = s.length + (s.map (fun pkt => pkt.m_failures)).sum := by
  induction s with
  | nil => simp
  | cons x xs ih => simp [ih]; omega

theorem sum_failures_flatten (L : List (List TxRecord)) :
    (L.flatten.map (fun pkt => pkt.m_failures)).sum
      = (L.map (fun s => (s.map (fun pkt => pkt.m_failures)).sum)).sum := by
  induction L with
  | nil => simp
  | cons x xs ih =>
    simp only [List.flatten_cons, List.map_append, List.sum_append, List.map_cons,
      List.sum_cons, ih]

theorem sum_attempts_lists (L : List (List TxRecord)) :
    (L.map (fun s => (s.map (fun pkt => 1 + pkt.m_failures)).sum)).sum
      = (L.map List.length).sum + (L.map (fun s => (s.map (fun pkt => pkt.m_failures)).sum)).sum := by
  induction L with
  | nil => simp
  | cons x xs ih =>
    rw [List.map_cons, List.sum_cons, ih, sum_attempts_series, List.map_cons, List.sum_cons,
      List.map_cons, List.sum_cons]
    omega

/-- The attempt count of a category is its success count plus the failures
of the same records. -/
theorem attemptMap_eq_success_add_failures (r : Run) (k : AcIndex) :
    (attemptMap r).get k
      = (successMap r).get k + ((categoryRecords r k).map (fun pkt => pkt.m_failures)).sum := by
  rw [attemptMap_get, successMap_get]
  unfold categoryRecords
  rw [sum_failures_flatten]
  exact sum_attempts_lists _

theorem length_eq_retained_add (s : List TxRecord) :
    s.length = (retained s).length + (if s ≠ [] then 1 else 0) := by
  cases s with
  | nil => simp [retained]
  | cons x xs => simp [retained]

theorem sum_length_eq_retained_add (L : List (List TxRecord)) :
    (L.map List.length).sum
      = ((L.map retained).flatten).length + (L.filter (fun s => decide (s ≠ []))).length := by
  induction L with
  | nil => simp
  | cons x xs ih =>
    cases x with
    | nil => simpa [retained] using ih
    | cons y ys =>
      simp [retained, List.filter_cons] at ih ⊢
      omega

theorem sum_e2e_flatten (L : List (List TxRecord)) :
    (L.map (fun s => (linkDelays s).totalQueuingDelay)).sum
        + (L.map (fun s => (linkDelays s).totalAccessDelay)).sum
      = (((L.map retained).flatten).map (fun c => c.m_dequeueMs - c.m_enqueueMs)).sum := by
  induction L with
  | nil => simp
  | cons x xs ih =>
    have hx := linkDelays_total_sum x
    rw [e2eDelays_eq_retained] at hx
    simp only [List.map_cons, List.sum_cons, List.flatten_cons, List.map_append, List.sum_append]
    rw [← ih, ← hx]
    ring

/-- The two delay totals of a category add up to the end-to-end delays of
its retained records. -/
theorem delay_totals_add (r : Run) (k : AcIndex) :
    (queDelayTotalMap r).get k + (accDelayTotalMap r).get k
      = ((categoryRetained r k).map (fun c => c.m_dequeueMs - c.m_enqueueMs)).sum := by
  rw [queDelayTotalMap_get, accDelayTotalMap_get]
  exact sum_e2e_flatten _

theorem exampleRun_series : categorySeries exampleRun AcIndex.AC_BE = [exampleSeries] := by decide

theorem exampleRun_success : (successMap exampleRun).get AcIndex.AC_BE = 3 := by decide

theorem exampleSeries_totalQueuing : (linkDelays exampleSeries).totalQueuingDelay = 5 := by
  rw [linkDelays_totalQueuingDelay]
  unfold queuingDelays
  rw [exampleSeries_hol, exampleSeries_enq]
  norm_num [List.range_succ]

theorem exampleSeries_totalAccess : (linkDelays exampleSeries).totalAccessDelay = 30 := by
  rw [linkDelays_totalAccessDelay, linkDelays_accessDelays, exampleSeries_hol, exampleSeries_enq,
    exampleSeries_deq]
  norm_num [List.range_succ]

/-! ## Head-of-line reconstruction and delay decomposition -/

/-- C1: in every series and at every index `i ≥ 1` of it, the HOL loop stores
`max(enqueue[i], completion[i-1])` (at index `i` of the HOL vector, which is
index `i - 1` once the first element is erased); that value is at least the
predecessor's completion time, at least the record's enqueue time, and equal
to one of the two. -/
theorem hol_reconstruction (records : List TxRecord) (i : Nat) (prev cur : TxRecord)
    (h1 : 1 ≤ i) (hp : records[i - 1]? = some prev) (hc : records[i]? = some cur) :
    ∃ hol : ℚ,
      (holTimes (enqueueTimes records) (dequeueTimes records))[i]? = some hol
      ∧ (holTimeMap records)[i - 1]? = some hol
      ∧ hol = max cur.m_enqueueMs prev.m_dequeueMs
      ∧ prev.m_dequeueMs ≤ hol ∧ cur.m_enqueueMs ≤ hol
      ∧ (hol = cur.m_enqueueMs ∨ hol = prev.m_dequeueMs) := by
  obtain ⟨j, rfl⟩ : ∃ j, i = j + 1 := ⟨i - 1, by omega⟩
  simp only [Nat.add_sub_cancel] at hp
  refine ⟨max cur.m_enqueueMs prev.m_dequeueMs, ?_, ?_, rfl, le_max_right _ _, le_max_left _ _, ?_⟩
  · have hlen : j + 1 < (enqueueTimes records).length := by
      have := lt_length_of_getElem? records (j + 1) cur hc
      simpa [enqueueTimes] using this
    rw [holTimes_getElem? _ _ _ hlen, holAt_succ records j prev cur hp hc]
  · simpa using holTimeMap_getElem? records j prev cur hp hc
  · rcases le_total cur.m_enqueueMs prev.m_dequeueMs with h | h
    · right; exact max_eq_right h
    · left; exact max_eq_left h

/-- Witness of C1: index 1 of the example series, whose HOL time is
`max(5, 10) = 10`. -/
theorem hol_reconstruction_witness :
    (1 ≤ 1 ∧ exampleSeries[1 - 1]? = some ⟨0, 10, 0⟩ ∧ exampleSeries[1]? = some ⟨5, 20, 0⟩)
    ∧ ∃ hol : ℚ,
      (holTimes (enqueueTimes exampleSeries) (dequeueTimes exampleSeries))[1]? = some hol
      ∧ (holTimeMap exampleSeries)[1 - 1]? = some hol
      ∧ hol = max (5 : ℚ) 10
      ∧ (10 : ℚ) ≤ hol ∧ (5 : ℚ) ≤ hol
      ∧ (hol = (5 : ℚ) ∨ hol = (10 : ℚ)) :=
  ⟨⟨by decide, rfl, rfl⟩, hol_reconstruction exampleSeries 1 ⟨0, 10, 0⟩ ⟨5, 20, 0⟩ (by decide) rfl rfl⟩

/-- C4: a series of length `n ≥ 1` leaves enqueue, dequeue and HOL vectors of
length `n - 1`, and the delay loop emits `n - 1` access delays and `n - 1`
end-to-end delays, the `j`-th of which belongs to the original index `j + 1`;
a series of length 1 yields no record and zero totals. -/
theorem decomposer_record_count (records : List TxRecord) (hn : 1 ≤ records.length) :
    (enqueueTimeMap records).length = records.length - 1
    ∧ (dequeueTimeMap records).length = records.length - 1
    ∧ (holTimeMap records).length = records.length - 1
    ∧ (linkDelays records).accessDelays.length = records.length - 1
    ∧ (linkDelays records).e2eDelays.length = records.length - 1
    ∧ (∀ (j : Nat) (prev cur : TxRecord), records[j]? = some prev → records[j + 1]? = some cur →
        (linkDelays records).accessDelays[j]?
            = some (cur.m_dequeueMs - max cur.m_enqueueMs prev.m_dequeueMs)
        ∧ (linkDelays records).e2eDelays[j]? = some (cur.m_dequeueMs - cur.m_enqueueMs))
    ∧ (records.length = 1 → linkDelays records = ⟨0, 0, [], []⟩) := by
  refine ⟨enqueueTimeMap_length records, dequeueTimeMap_length records,
    holTimeMap_length records, ?_, ?_, ?_, ?_⟩
  · simp [linkDelays_accessDelays, enqueueTimeMap_length]
  · simp [linkDelays_e2eDelays, enqueueTimeMap_length]
  · intro j prev cur hp hc
    have hj : j < (enqueueTimeMap records).length := by
      have := lt_length_of_getElem? records (j + 1) cur hc
      rw [enqueueTimeMap_length]; omega
    rw [linkDelays_accessDelays, linkDelays_e2eDelays]
    simp only [List.getElem?_map, List.getElem?_range hj, Option.map_some']
    rw [dequeueTimeMap_getD records j cur hc, holTimeMap_getD records j prev cur hp hc,
      enqueueTimeMap_getD records j cur hc]
    exact ⟨rfl, rfl⟩
  · intro h1
    have h0 : (enqueueTimeMap records).length = 0 := by
      rw [enqueueTimeMap_length, h1]
    unfold linkDelays delayLoop
    rw [h0]
    rfl

/-- Witness of C4: the example series of length 3 yields two records. -/
theorem decomposer_record_count_witness :
    1 ≤ exampleSeries.length
    ∧ (linkDelays exampleSeries).accessDelays.length = exampleSeries.length - 1
    ∧ (linkDelays exampleSeries).e2eDelays.length = exampleSeries.length - 1 :=
  ⟨by decide, (decomposer_record_count exampleSeries (by decide)).2.2.2.1,
    (decomposer_record_count exampleSeries (by decide)).2.2.2.2.1⟩

/-- C5: the per-(node, link) totals are the sums of the terms
`hol - enqueue` and `completion - hol`, and for every emitted record (original
index `j + 1`) the end-to-end delay `completion - enqueue` is the sum of its
queuing term and its access term; on the example series the records are
(5, 10, 15) and (0, 20, 20). -/
theorem delay_decomposition_exact :
    (∀ records : List TxRecord,
      (linkDelays records).totalQueuingDelay = (queuingDelays records).sum
      ∧ (linkDelays records).totalAccessDelay = (linkDelays records).accessDelays.sum)
    ∧ (∀ (records : List TxRecord) (j : Nat) (prev cur : TxRecord),
        records[j]? = some prev → records[j + 1]? = some cur →
        ∃ q a e : ℚ,
          (queuingDelays records)[j]? = some q
          ∧ (linkDelays records).accessDelays[j]? = some a
          ∧ (linkDelays records).e2eDelays[j]? = some e
          ∧ q = max cur.m_enqueueMs prev.m_dequeueMs - cur.m_enqueueMs
          ∧ a = cur.m_dequeueMs - max cur.m_enqueueMs prev.m_dequeueMs
          ∧ e = cur.m_dequeueMs - cur.m_enqueueMs
          ∧ e = q + a)
    ∧ queuingDelays exampleSeries = [5, 0]
    ∧ (linkDelays exampleSeries).accessDelays = [10, 20]
    ∧ (linkDelays exampleSeries).e2eDelays = [15, 20] := by
  refine ⟨fun records => ⟨linkDelays_totalQueuingDelay records,
    linkDelays_totalAccessDelay records⟩, ?_, ?_, ?_, ?_⟩
  · intro records j prev cur hp hc
    have hj : j < (enqueueTimeMap records).length := by
      have := lt_length_of_getElem? records (j + 1) cur hc
      rw [enqueueTimeMap_length]; omega
    refine ⟨_, _, _, ?_, ?_, ?_, rfl, rfl, rfl, by ring⟩
    · unfold queuingDelays
      simp only [List.getElem?_map, List.getElem?_range hj, Option.map_some']
      rw [holTimeMap_getD records j prev cur hp hc, enqueueTimeMap_getD records j cur hc]
    · rw [linkDelays_accessDelays]
      simp only [List.getElem?_map, List.getElem?_range hj, Option.map_some']
      rw [dequeueTimeMap_getD records j cur hc, holTimeMap_getD records j prev cur hp hc]
    · rw [linkDelays_e2eDelays]
      simp only [List.getElem?_map, List.getElem?_range hj, Option.map_some']
      rw [dequeueTimeMap_getD records j cur hc, enqueueTimeMap_getD records j cur hc]
  · unfold queuingDelays
    rw [exampleSeries_hol, exampleSeries_enq]
    norm_num [List.range_succ]
  · rw [linkDelays_accessDelays, exampleSeries_hol, exampleSeries_enq, exampleSeries_deq]
    norm_num [List.range_succ]
  · rw [linkDelays_e2eDelays, exampleSeries_enq, exampleSeries_deq]
    norm_num [List.range_succ]

/-- Witness of C5: the second record of the example series. -/
theorem delay_decomposition_exact_witness :
    (exampleSeries[0]? = some ⟨0, 10, 0⟩ ∧ exampleSeries[0 + 1]? = some ⟨5, 20, 0⟩)
    ∧ ∃ q a e : ℚ,
        (queuingDelays exampleSeries)[0]? = some q
        ∧ (linkDelays exampleSeries).accessDelays[0]? = some a
        ∧ (linkDelays exampleSeries).e2eDelays[0]? = some e
        ∧ q = max (5 : ℚ) 10 - 5
        ∧ a = 20 - max (5 : ℚ) 10
        ∧ e = (20 : ℚ) - 5
        ∧ e = q + a :=
  ⟨⟨rfl, rfl⟩, delay_decomposition_exact.2.1 exampleSeries 0 ⟨0, 10, 0⟩ ⟨5, 20, 0⟩ rfl rfl⟩

/-! ## Counts, means and probabilities per category -/

/-- C2, as stated, fails: on the example series the code counts 3 successes
while 2 records are retained. -/
theorem successCount_ne_retained_count :
    (successMap exampleRun).get AcIndex.AC_BE = 3
    ∧ (categoryRetained exampleRun AcIndex.AC_BE).length = 2
    ∧ ¬ (∀ (r : Run) (k : AcIndex), (successMap r).get k = (categoryRetained r k).length) := by
  have h3 : (successMap exampleRun).get AcIndex.AC_BE = 3 := exampleRun_success
  have h2 : (categoryRetained exampleRun AcIndex.AC_BE).length = 2 := by decide
  refine ⟨h3, h2, fun h => ?_⟩
  have := h exampleRun AcIndex.AC_BE
  rw [h3, h2] at this
  exact absurd this (by decide)

/-- C2, amended: the success count of a category is the number of all records
of its stations, index 0 of every series included, that is the number of
retained records plus one for every non-empty series; the example series
gives 3. -/
theorem successCount_counts_all_records :
    (∀ (r : Run) (k : AcIndex),
      (successMap r).get k = (categoryRecords r k).length
      ∧ (successMap r).get k
          = (categoryRetained r k).length
            + ((categorySeries r k).filter (fun s => decide (s ≠ []))).length)
    ∧ (successMap exampleRun).get AcIndex.AC_BE = 3 := by
  refine ⟨fun r k => ⟨?_, ?_⟩, exampleRun_success⟩
  · rw [successMap_get, categoryRecords_length]
  · rw [successMap_get]
    exact sum_length_eq_retained_add _

/-- C3 at the failing input: for the example series the code reports the mean
queuing delay 5/3 and the mean access delay 10, because it divides the sums
over the two retained records by the success count 3; the means over the
retained records are 5/2 and 15. -/
theorem mean_delay_divides_by_success_count :
    sldMeanQueDelay exampleRun AcIndex.AC_BE = Dbl.fin (5 / 3)
    ∧ sldMeanAccDelay exampleRun AcIndex.AC_BE = Dbl.fin 10
    ∧ ((categorySeries exampleRun AcIndex.AC_BE).map (fun s => (queuingDelays s).sum)).sum
        / ((categoryRetained exampleRun AcIndex.AC_BE).length : ℚ) = 5 / 2
    ∧ ((categorySeries exampleRun AcIndex.AC_BE).map
          (fun s => (linkDelays s).accessDelays.sum)).sum
        / ((categoryRetained exampleRun AcIndex.AC_BE).length : ℚ) = 15 := by
  have hlen : (categoryRetained exampleRun AcIndex.AC_BE).length = 2 := by decide
  refine ⟨?_, ?_, ?_, ?_⟩
  · rw [sldMeanQueDelay_eq, queDelayTotalMap_get, exampleRun_series, exampleRun_success]
    simp [exampleSeries_totalQueuing]
  · rw [sldMeanAccDelay_eq, accDelayTotalMap_get, exampleRun_series, exampleRun_success]
    simp [exampleSeries_totalAccess]
    norm_num
  · rw [exampleRun_series, hlen]
    simp only [List.map_cons, List.map_nil, List.sum_cons, List.sum_nil]
    rw [← linkDelays_totalQueuingDelay, exampleSeries_totalQueuing]
    norm_num
  · rw [exampleRun_series, hlen]
    simp only [List.map_cons, List.map_nil, List.sum_cons, List.sum_nil]
    rw [← linkDelays_totalAccessDelay, exampleSeries_totalAccess]
    norm_num

/-- C6 at the failing input: when no station has any record the four totals
are the results of unguarded divisions by zero, not 0.0; so is the
per-(node, link) mean of a series with a single record. -/
theorem total_divisions_unguarded :
    successTotal idleRun = 0 ∧ attemptTotal idleRun = 0
    ∧ sldSuccPr_total idleRun = Dbl.undef
    ∧ sldMeanQueDelay_total idleRun = Dbl.undef
    ∧ sldMeanAccDelay_total idleRun = Dbl.undef
    ∧ sldMeanE2eDelay_total idleRun = Dbl.undef
    ∧ meanDelayPerNodeLink 0 1 = Dbl.undef := by
  have hs : successTotal idleRun = 0 := by decide
  have ha : attemptTotal idleRun = 0 := by decide
  have hq : sldMeanQueDelay_total idleRun = Dbl.undef := by
    unfold sldMeanQueDelay_total
    rw [hs]
    exact Dbl.div_zero _
  have hacc : sldMeanAccDelay_total idleRun = Dbl.undef := by
    unfold sldMeanAccDelay_total
    rw [hs]
    exact Dbl.div_zero _
  refine ⟨hs, ha, ?_, hq, hacc, ?_, ?_⟩
  · unfold sldSuccPr_total
    rw [hs, ha]
    exact Dbl.div_zero _
  · unfold sldMeanE2eDelay_total
    rw [hq, hacc]
    rfl
  · unfold meanDelayPerNodeLink
    norm_num [Dbl.div]

/-- C8: the attempt count of a category is its success count plus the sum of
`m_failures` over exactly the records counted as successes (all records of
the category's stations); the reported success probability is
`successCount / attemptCount` when the attempt count is positive and 0 when
it is zero. -/
theorem category_success_probability (r : Run) (k : AcIndex) :
    (successMap r).get k = (categoryRecords r k).length
    ∧ (attemptMap r).get k
        = (successMap r).get k + ((categoryRecords r k).map (fun pkt => pkt.m_failures)).sum
    ∧ (0 < (attemptMap r).get k →
        sldSuccPr r k = Dbl.fin (((successMap r).get k : ℚ) / ((attemptMap r).get k : ℚ)))
    ∧ ((attemptMap r).get k = 0 → sldSuccPr r k = Dbl.fin 0) := by
  have hs : (successMap r).get k = (categoryRecords r k).length := by
    rw [successMap_get, categoryRecords_length]
  have ha := attemptMap_eq_success_add_failures r k
  refine ⟨hs, ha, ?_, ?_⟩
  · intro hpos
    have hspos : 0 < (successMap r).get k := by
      by_contra hn
      have h0 : (successMap r).get k = 0 := by omega
      have hnil : categoryRecords r k = [] := by
        rw [hs] at h0
        exact List.length_eq_zero.mp h0
      rw [ha, h0, hnil] at hpos
      simp at hpos
    have hq : ((attemptMap r).get k : ℚ) ≠ 0 := by
      exact_mod_cast (Nat.pos_iff_ne_zero.mp hpos)
    rw [sldSuccPr_eq, if_pos hspos, if_pos hpos, Dbl.div_fin _ _ hq]
  · intro h0
    have hs0 : ¬ 0 < (successMap r).get k := by omega
    rw [sldSuccPr_eq, if_neg hs0]

/-- Witness of C8: the BE category of the weighted run (2 successes, 4
attempts) and the BE category of the idle run (no attempt). -/
theorem category_success_probability_witness :
    (0 < (attemptMap weightedRun).get AcIndex.AC_BE
      ∧ sldSuccPr weightedRun AcIndex.AC_BE
          = Dbl.fin (((successMap weightedRun).get AcIndex.AC_BE : ℚ)
              / ((attemptMap weightedRun).get AcIndex.AC_BE : ℚ)))
    ∧ ((attemptMap idleRun).get AcIndex.AC_BE = 0
      ∧ sldSuccPr idleRun AcIndex.AC_BE = Dbl.fin 0) :=
  ⟨⟨by decide, (category_success_probability weightedRun AcIndex.AC_BE).2.2.1 (by decide)⟩,
    ⟨by decide, (category_success_probability idleRun AcIndex.AC_BE).2.2.2 (by decide)⟩⟩

/-- C7: whenever the total attempt count is not zero, the reported total
success probability is the sum of the four success counts divided by the sum
of the four attempt counts; with 2 successes in 4 attempts for BE and 8
successes in 8 attempts for BK it is 10/12, not the mean 3/4 of the two
per-category probabilities 1/2 and 1. -/
theorem total_success_probability_weighted :
    (∀ r : Run,
      (attemptMap r).get AcIndex.AC_BE + (attemptMap r).get AcIndex.AC_BK
        + (attemptMap r).get AcIndex.AC_VI + (attemptMap r).get AcIndex.AC_VO ≠ 0 →
      sldSuccPr_total r
        = Dbl.fin
            ((((successMap r).get AcIndex.AC_BE + (successMap r).get AcIndex.AC_BK
                + (successMap r).get AcIndex.AC_VI + (successMap r).get AcIndex.AC_VO : ℕ) : ℚ)
              / (((attemptMap r).get AcIndex.AC_BE + (attemptMap r).get AcIndex.AC_BK
                + (attemptMap r).get AcIndex.AC_VI + (attemptMap r).get AcIndex.AC_VO : ℕ) : ℚ)))
    ∧ ((successMap weightedRun).get AcIndex.AC_BE = 2
        ∧ (attemptMap weightedRun).get AcIndex.AC_BE = 4
        ∧ (successMap weightedRun).get AcIndex.AC_BK = 8
        ∧ (attemptMap weightedRun).get AcIndex.AC_BK = 8
        ∧ (successMap weightedRun).get AcIndex.AC_VI = 0
        ∧ (successMap weightedRun).get AcIndex.AC_VO = 0)
    ∧ sldSuccPr weightedRun AcIndex.AC_BE = Dbl.fin (1 / 2)
    ∧ sldSuccPr weightedRun AcIndex.AC_BK = Dbl.fin 1
    ∧ sldSuccPr_total weightedRun = Dbl.fin (10 / 12)
    ∧ sldSuccPr_total weightedRun ≠ Dbl.fin (3 / 4) := by
  have hgen : ∀ r : Run, attemptTotal r ≠ 0 →
      sldSuccPr_total r = Dbl.fin ((successTotal r : ℚ) / (attemptTotal r : ℚ)) := by
    intro r h
    have hq : (attemptTotal r : ℚ) ≠ 0 := by exact_mod_cast h
    unfold sldSuccPr_total
    exact Dbl.div_fin _ _ hq
  have hsBE : (successMap weightedRun).get AcIndex.AC_BE = 2 := by decide
  have haBE : (attemptMap weightedRun).get AcIndex.AC_BE = 4 := by decide
  have hsBK : (successMap weightedRun).get AcIndex.AC_BK = 8 := by decide
  have haBK : (attemptMap weightedRun).get AcIndex.AC_BK = 8 := by decide
  have hsT : successTotal weightedRun = 10 := by decide
  have haT : attemptTotal weightedRun = 12 := by decide
  have htot : sldSuccPr_total weightedRun = Dbl.fin (10 / 12) := by
    rw [hgen weightedRun (by rw [haT]; decide), hsT, haT]
    norm_num
  refine ⟨fun r h => hgen r h, ⟨hsBE, haBE, hsBK, haBK, by decide, by decide⟩, ?_, ?_, htot, ?_⟩
  · rw [sldSuccPr_eq, hsBE, haBE]
    norm_num [Dbl.div]
  · rw [sldSuccPr_eq, hsBK, haBK]
    norm_num [Dbl.div]
  · rw [htot]
    intro h
    injection h with h
    norm_num at h

/-- Witness of C7: the weighted run has 12 attempts in total. -/
theorem total_success_probability_weighted_witness :
    (attemptMap weightedRun).get AcIndex.AC_BE + (attemptMap weightedRun).get AcIndex.AC_BK
        + (attemptMap weightedRun).get AcIndex.AC_VI
        + (attemptMap weightedRun).get AcIndex.AC_VO ≠ 0
    ∧ sldSuccPr_total weightedRun
        = Dbl.fin
            ((((successMap weightedRun).get AcIndex.AC_BE
                + (successMap weightedRun).get AcIndex.AC_BK
                + (successMap weightedRun).get AcIndex.AC_VI
                + (successMap weightedRun).get AcIndex.AC_VO : ℕ) : ℚ)
              / (((attemptMap weightedRun).get AcIndex.AC_BE
                + (attemptMap weightedRun).get AcIndex.AC_BK
                + (attemptMap weightedRun).get AcIndex.AC_VI
                + (attemptMap weightedRun).get AcIndex.AC_VO : ℕ) : ℚ)) :=
  ⟨by decide, total_success_probability_weighted.1 weightedRun (by decide)⟩

/-! ## Throughput and mean end-to-end delay -/

/-- C9: for a window of non-zero length, the reported throughput of every
category is `successCount * (8 * payloadSize) / simulationTime / 10^6`, and
the reported total, the sum of the four, is the same formula applied to the
sum of the four success counts; 100 successes of 1500 bytes in 20 s give
0.06 Mbps. -/
theorem throughput_formula :
    (∀ (r : Run) (k : AcIndex), r.simulationTime ≠ 0 →
      sldThpt r k
        = Dbl.fin (((successMap r).get k : ℚ) * (8 * (r.payloadSize : ℚ))
            / r.simulationTime / 10 ^ 6))
    ∧ (∀ r : Run, r.simulationTime ≠ 0 →
      sldThpt_total r
        = Dbl.fin ((((successMap r).get AcIndex.AC_BE + (successMap r).get AcIndex.AC_BK
              + (successMap r).get AcIndex.AC_VI + (successMap r).get AcIndex.AC_VO : ℕ) : ℚ)
            * (8 * (r.payloadSize : ℚ)) / r.simulationTime / 10 ^ 6))
    ∧ (successMap throughputRun).get AcIndex.AC_BE = 100
    ∧ sldThpt throughputRun AcIndex.AC_BE = Dbl.fin (6 / 100)
    ∧ sldThpt_total throughputRun = Dbl.fin (6 / 100) := by
  have hcat : ∀ (r : Run) (k : AcIndex), r.simulationTime ≠ 0 →
      sldThpt r k
        = Dbl.fin (((successMap r).get k : ℚ) * (8 * (r.payloadSize : ℚ))
            / r.simulationTime / 10 ^ 6) := by
    intro r k ht
    rw [sldThpt_eq]
    by_cases hs : 0 < (successMap r).get k
    · rw [if_pos hs, Dbl.div_fin _ _ ht, Dbl.div_fin _ _ (by norm_num)]
      congr 1
      ring
    · have h0 : (successMap r).get k = 0 := by omega
      rw [if_neg hs, h0]
      simp
  have htot : ∀ r : Run, r.simulationTime ≠ 0 →
      sldThpt_total r
        = Dbl.fin ((((successMap r).get AcIndex.AC_BE + (successMap r).get AcIndex.AC_BK
              + (successMap r).get AcIndex.AC_VI + (successMap r).get AcIndex.AC_VO : ℕ) : ℚ)
            * (8 * (r.payloadSize : ℚ)) / r.simulationTime / 10 ^ 6) := by
    intro r ht
    unfold sldThpt_total
    rw [hcat r _ ht, hcat r _ ht, hcat r _ ht, hcat r _ ht]
    simp only [Dbl.add]
    congr 1
    push_cast
    ring
  have h100 : (successMap throughputRun).get AcIndex.AC_BE = 100 := by
    rw [successMap_get]
    have hser : categorySeries throughputRun AcIndex.AC_BE
        = [(List.range 100).map
            (fun (i : Nat) => (⟨(i : ℚ), (i : ℚ) + 1, 0⟩ : TxRecord))] := rfl
    rw [hser]
    simp
  have h0 : ∀ k : AcIndex, k ≠ AcIndex.AC_BE → (successMap throughputRun).get k = 0 := by
    intro k hk
    rw [successMap_get]
    have hser : categorySeries throughputRun k = [] := by
      cases k
      · exact absurd rfl hk
      · decide
      · decide
      · decide
    rw [hser]
    rfl
  have ht : throughputRun.simulationTime ≠ 0 := by
    show (20 : ℚ) ≠ 0
    norm_num
  refine ⟨hcat, htot, h100, ?_, ?_⟩
  · rw [hcat throughputRun _ ht, h100]
    show Dbl.fin (((100 : ℕ) : ℚ) * (8 * ((1500 : ℕ) : ℚ)) / 20 / 10 ^ 6) = Dbl.fin (6 / 100)
    norm_num
  · rw [htot throughputRun ht, h100, h0 _ (by decide), h0 _ (by decide), h0 _ (by decide)]
    show Dbl.fin (((100 + 0 + 0 + 0 : ℕ) : ℚ) * (8 * ((1500 : ℕ) : ℚ)) / 20 / 10 ^ 6)
      = Dbl.fin (6 / 100)
    norm_num

/-- Witness of C9: the throughput run has a window of 20 s. -/
theorem throughput_formula_witness :
    throughputRun.simulationTime ≠ 0
    ∧ sldThpt throughputRun AcIndex.AC_BE
        = Dbl.fin (((successMap throughputRun).get AcIndex.AC_BE : ℚ)
            * (8 * (throughputRun.payloadSize : ℚ)) / throughputRun.simulationTime / 10 ^ 6) :=
  ⟨by decide, throughput_formula.1 throughputRun AcIndex.AC_BE (by decide)⟩

/-- C10: for every category with a positive success count the reported mean
end-to-end delay, computed as mean queuing delay plus mean access delay, is
the sum of `completion - enqueue` over the retained records of the category's
stations divided by the success count that also divides the other two means;
the same holds for the total when the total success count is positive. -/
theorem mean_e2e_consistent :
    (∀ (r : Run) (k : AcIndex), 0 < (successMap r).get k →
      sldMeanQueDelay r k = Dbl.fin ((queDelayTotalMap r).get k / ((successMap r).get k : ℚ))
      ∧ sldMeanAccDelay r k = Dbl.fin ((accDelayTotalMap r).get k / ((successMap r).get k : ℚ))
      ∧ sldMeanE2eDelay r k = Dbl.add (sldMeanQueDelay r k) (sldMeanAccDelay r k)
      ∧ sldMeanE2eDelay r k
          = Dbl.fin (((categoryRetained r k).map (fun c => c.m_dequeueMs - c.m_enqueueMs)).sum
              / ((successMap r).get k : ℚ)))
    ∧ (∀ r : Run,
        0 < (successMap r).get AcIndex.AC_BE + (successMap r).get AcIndex.AC_BK
            + (successMap r).get AcIndex.AC_VI + (successMap r).get AcIndex.AC_VO →
      sldMeanE2eDelay_total r = Dbl.add (sldMeanQueDelay_total r) (sldMeanAccDelay_total r)
      ∧ sldMeanE2eDelay_total r
          = Dbl.fin
              ((((categoryRetained r AcIndex.AC_BE).map
                    (fun c => c.m_dequeueMs - c.m_enqueueMs)).sum
                + ((categoryRetained r AcIndex.AC_BK).map
                    (fun c => c.m_dequeueMs - c.m_enqueueMs)).sum
                + ((categoryRetained r AcIndex.AC_VI).map
                    (fun c => c.m_dequeueMs - c.m_enqueueMs)).sum
                + ((categoryRetained r AcIndex.AC_VO).map
                    (fun c => c.m_dequeueMs - c.m_enqueueMs)).sum)
              / (((successMap r).get AcIndex.AC_BE + (successMap r).get AcIndex.AC_BK
                  + (successMap r).get AcIndex.AC_VI + (successMap r).get AcIndex.AC_VO : ℕ)
                  : ℚ))) := by
  constructor
  · intro r k hs
    have hq := sldMeanQueDelay_eq r k
    have ha := sldMeanAccDelay_eq r k
    have he := sldMeanE2eDelay_eq r k
    rw [if_pos hs] at hq ha he
    refine ⟨hq, ha, ?_, ?_⟩
    · rw [he, hq, ha]; rfl
    · rw [he, ← delay_totals_add r k]
      congr 1
      ring
  · intro r hs
    have hq : ((successTotal r : ℕ) : ℚ) ≠ 0 := by
      have : successTotal r ≠ 0 := by unfold successTotal; omega
      exact_mod_cast this
    refine ⟨rfl, ?_⟩
    unfold sldMeanE2eDelay_total sldMeanQueDelay_total sldMeanAccDelay_total
    rw [Dbl.div_fin _ _ hq, Dbl.div_fin _ _ hq]
    simp only [Dbl.add]
    rw [← delay_totals_add r AcIndex.AC_BE, ← delay_totals_add r AcIndex.AC_BK,
      ← delay_totals_add r AcIndex.AC_VI, ← delay_totals_add r AcIndex.AC_VO]
    congr 1
    unfold successTotal
    ring

/-- Witness of C10: the BE category of the example run, whose success count
is 3. -/
theorem mean_e2e_consistent_witness :
    0 < (successMap exampleRun).get AcIndex.AC_BE
    ∧ sldMeanE2eDelay exampleRun AcIndex.AC_BE
        = Dbl.fin (((categoryRetained exampleRun AcIndex.AC_BE).map
              (fun c => c.m_dequeueMs - c.m_enqueueMs)).sum
            / ((successMap exampleRun).get AcIndex.AC_BE : ℚ))
    ∧ 0 < (successMap exampleRun).get AcIndex.AC_BE + (successMap exampleRun).get AcIndex.AC_BK
            + (successMap exampleRun).get AcIndex.AC_VI
            + (successMap exampleRun).get AcIndex.AC_VO
    ∧ sldMeanE2eDelay_total exampleRun
        = Dbl.add (sldMeanQueDelay_total exampleRun) (sldMeanAccDelay_total exampleRun) :=
  ⟨by decide, (mean_e2e_consistent.1 exampleRun AcIndex.AC_BE (by decide)).2.2.2,
    by decide, (mean_e2e_consistent.2 exampleRun (by decide)).1⟩

/-! ## Configuration check and station-class assignment -/

theorem pushLoop_eq (ac : AcIndex) (n : Nat) (hn : n < 2 ^ 32) (fuel i : Nat) (l : List AcIndex)
    (hi : i ≤ n) (hf : n - i < fuel) :
    pushLoop ac n fuel i l = some (l ++ List.replicate (n - i) ac) := by
  induction fuel generalizing i l with
  | zero => omega
  | succ fuel ih =>
    unfold pushLoop
    by_cases h : i < n
    · have hmod : (i + 1) % 2 ^ 32 = i + 1 := Nat.mod_eq_of_lt (by omega)
      rw [if_pos h, hmod, ih (i + 1) (l ++ [ac]) (by omega) (by omega)]
      have hsub : n - i = (n - (i + 1)) + 1 := by omega
      rw [hsub, List.replicate_succ]
      simp
    · have h0 : n - i = 0 := by omega
      rw [if_neg h, h0]
      simp

theorem pushLoop_diverges (ac : AcIndex) (n : Nat) (hn : 2 ^ 32 ≤ n) (fuel i : Nat)
    (l : List AcIndex) (hi : i < 2 ^ 32) : pushLoop ac n fuel i l = none := by
  induction fuel generalizing i l with
  | zero => rfl
  | succ fuel ih =>
    unfold pushLoop
    rw [if_pos (by omega)]
    exact ih _ _ (Nat.mod_lt _ (by norm_num))

theorem foldl_push_const (ac : AcIndex) (n : Nat) (l : List AcIndex) :
    (List.range n).foldl (fun acc _ => acc ++ [ac]) l = l ++ List.replicate n ac := by
  rw [foldl_push (fun _ => ac) (List.range n) l]
  congr 1
  apply List.ext_getElem?
  intro j
  by_cases hj : j < n
  · simp [List.getElem?_map, List.getElem?_range hj, List.getElem?_replicate, hj]
  · simp [List.getElem?_replicate, hj, List.getElem?_eq_none]

theorem acList_eq (nBK nBE nVI nVO : Nat) :
    acList nBK nBE nVI nVO
      = List.replicate nBK AcIndex.AC_BK ++ List.replicate nBE AcIndex.AC_BE
        ++ List.replicate nVI AcIndex.AC_VI ++ List.replicate nVO AcIndex.AC_VO := by
  unfold acList
  simp only [foldl_push_const, List.nil_append]

theorem acListLoops_eq (cfg : Config) (hBK : cfg.nBK < 2 ^ 32) (hBE : cfg.nBE < 2 ^ 32)
    (hVI : cfg.nVI < 2 ^ 32) (hVO : cfg.nVO < 2 ^ 32) (fuel : Nat)
    (hf : cfg.nBK < fuel ∧ cfg.nBE < fuel ∧ cfg.nVI < fuel ∧ cfg.nVO < fuel) :
    acListLoops fuel cfg = some (acList cfg.nBK cfg.nBE cfg.nVI cfg.nVO) := by
  unfold acListLoops
  rw [pushLoop_eq _ _ hBK fuel 0 _ (Nat.zero_le _) (by omega)]
  simp only [Option.some_bind, Option.bind_eq_bind]
  rw [pushLoop_eq _ _ hBE fuel 0 _ (Nat.zero_le _) (by omega)]
  simp only [Option.some_bind, Option.bind_eq_bind]
  rw [pushLoop_eq _ _ hVI fuel 0 _ (Nat.zero_le _) (by omega)]
  simp only [Option.some_bind, Option.bind_eq_bind]
  rw [pushLoop_eq _ _ hVO fuel 0 _ (Nat.zero_le _) (by omega), acList_eq]
  simp


theorem wrongNSld_eq_false (cfg : Config) (hsum : cfg.nBE + cfg.nBK + cfg.nVI + cfg.nVO < 2 ^ 64) :
    wrongNSld cfg = false ↔ cfg.nSld = cfg.nBE + cfg.nBK + cfg.nVI + cfg.nVO := by
  unfold wrongNSld
  rw [Nat.mod_eq_of_lt hsum]
  simp

theorem main_of_check_passed (cfg : Config) (trace : SuccessInfo) (fuel : Nat)
    (hcheck : wrongNSld cfg = false)
    (hBK : cfg.nBK < 2 ^ 32) (hBE : cfg.nBE < 2 ^ 32) (hVI : cfg.nVI < 2 ^ 32)
    (hVO : cfg.nVO < 2 ^ 32) (hSld : cfg.nSld < 2 ^ 32 - 1)
    (hf : cfg.nBK < fuel ∧ cfg.nBE < fuel ∧ cfg.nVI < fuel ∧ cfg.nVO < fuel) :
    main fuel cfg trace
      = some (Outcome.reported (acList cfg.nBK cfg.nBE cfg.nVI cfg.nVO)
          (reportRow cfg (runOf cfg (acList cfg.nBK cfg.nBE cfg.nVI cfg.nVO) trace))) := by
  unfold main
  rw [hcheck, acListLoops_eq cfg hBK hBE hVI hVO fuel hf]
  simp only [Bool.false_eq_true, if_false]
  rw [if_pos hSld]

/-- C16: when each per-category count is below `2 ^ 32` and the check of line
216 passes, the four assignment loops end (for every fuel above the counts)
with a list of length `nSld` made of `nBK` entries BK, then `nBE` entries BE,
then `nVI` entries VI, then `nVO` entries VO; so `acList[i]` for `i < nSld` and
`acList[i - 1]` for `1 ≤ i ≤ nSld` are within bounds and every category has
exactly its configured number of stations. -/
theorem acList_total_in_bounds (cfg : Config)
    (hBK : cfg.nBK < 2 ^ 32) (hBE : cfg.nBE < 2 ^ 32) (hVI : cfg.nVI < 2 ^ 32)
    (hVO : cfg.nVO < 2 ^ 32) (hcheck : wrongNSld cfg = false) :
    ∃ l : List AcIndex,
      (∀ fuel : Nat, cfg.nBK < fuel ∧ cfg.nBE < fuel ∧ cfg.nVI < fuel ∧ cfg.nVO < fuel →
        acListLoops fuel cfg = some l)
      ∧ l = List.replicate cfg.nBK AcIndex.AC_BK ++ List.replicate cfg.nBE AcIndex.AC_BE
            ++ List.replicate cfg.nVI AcIndex.AC_VI ++ List.replicate cfg.nVO AcIndex.AC_VO
      ∧ l.length = cfg.nSld
      ∧ (∀ i : Nat, i < cfg.nSld → ∃ ac, l[i]? = some ac)
      ∧ (∀ i : Nat, 1 ≤ i → i ≤ cfg.nSld → ∃ ac, l[i - 1]? = some ac)
      ∧ l.count AcIndex.AC_BK = cfg.nBK ∧ l.count AcIndex.AC_BE = cfg.nBE
      ∧ l.count AcIndex.AC_VI = cfg.nVI ∧ l.count AcIndex.AC_VO = cfg.nVO := by
  have hsum : cfg.nBE + cfg.nBK + cfg.nVI + cfg.nVO < 2 ^ 64 := by omega
  have hn := (wrongNSld_eq_false cfg hsum).mp hcheck
  have hlen : (acList cfg.nBK cfg.nBE cfg.nVI cfg.nVO).length = cfg.nSld := by
    rw [acList_eq]
    simp
    omega
  refine ⟨acList cfg.nBK cfg.nBE cfg.nVI cfg.nVO,
    fun fuel hf => acListLoops_eq cfg hBK hBE hVI hVO fuel hf, acList_eq _ _ _ _, hlen,
    ?_, ?_, ?_, ?_, ?_, ?_⟩
  · intro i hi
    exact ⟨_, List.getElem?_eq_getElem (by rw [hlen]; exact hi)⟩
  · intro i h1 hi
    exact ⟨_, List.getElem?_eq_getElem (by rw [hlen]; omega)⟩
  · rw [acList_eq]; simp [List.count_replicate]
  · rw [acList_eq]; simp [List.count_replicate]
  · rw [acList_eq]; simp [List.count_replicate]
  · rw [acList_eq]; simp [List.count_replicate]

/-- Witness of C16: the default configuration (1 BK, 2 BE, 1 VI, 1 VO, 5
stations). -/
theorem acList_total_in_bounds_witness :
    (defaultConfig.nBK < 2 ^ 32 ∧ defaultConfig.nBE < 2 ^ 32 ∧ defaultConfig.nVI < 2 ^ 32
      ∧ defaultConfig.nVO < 2 ^ 32 ∧ wrongNSld defaultConfig = false)
    ∧ ∃ l : List AcIndex,
      (∀ fuel : Nat,
        defaultConfig.nBK < fuel ∧ defaultConfig.nBE < fuel ∧ defaultConfig.nVI < fuel
          ∧ defaultConfig.nVO < fuel →
        acListLoops fuel defaultConfig = some l)
      ∧ l = List.replicate defaultConfig.nBK AcIndex.AC_BK
            ++ List.replicate defaultConfig.nBE AcIndex.AC_BE
            ++ List.replicate defaultConfig.nVI AcIndex.AC_VI
            ++ List.replicate defaultConfig.nVO AcIndex.AC_VO
      ∧ l.length = defaultConfig.nSld
      ∧ (∀ i : Nat, i < defaultConfig.nSld → ∃ ac, l[i]? = some ac)
      ∧ (∀ i : Nat, 1 ≤ i → i ≤ defaultConfig.nSld → ∃ ac, l[i - 1]? = some ac)
      ∧ l.count AcIndex.AC_BK = defaultConfig.nBK ∧ l.count AcIndex.AC_BE = defaultConfig.nBE
      ∧ l.count AcIndex.AC_VI = defaultConfig.nVI ∧ l.count AcIndex.AC_VO = defaultConfig.nVO :=
  ⟨⟨by decide, by decide, by decide, by decide, by decide⟩,
    acList_total_in_bounds defaultConfig (by decide) (by decide) (by decide) (by decide)
      (by decide)⟩

/-- C12, as stated, fails: the station count 0 differs from the sum
`2 ^ 63 + 2 ^ 63` of the per-category counts, but the sum wraps to 0 in
`std::size_t` arithmetic, so the check passes and the run goes on into the
assignment loops, which do not end. -/
theorem config_check_wraps :
    wrapConfig.nSld ≠ wrapConfig.nBE + wrapConfig.nBK + wrapConfig.nVI + wrapConfig.nVO
    ∧ wrongNSld wrapConfig = false
    ∧ (∀ (fuel : Nat) (trace : SuccessInfo),
        main fuel wrapConfig trace ≠ some Outcome.wrongNSldParameter
        ∧ main fuel wrapConfig trace = none) := by
  have hw : wrongNSld wrapConfig = false := by decide
  have hmain : ∀ (fuel : Nat) (trace : SuccessInfo), main fuel wrapConfig trace = none := by
    intro fuel trace
    unfold main acListLoops
    rw [hw, pushLoop_diverges AcIndex.AC_BK wrapConfig.nBK (by decide) fuel 0 [] (by decide)]
    rfl
  refine ⟨by decide, hw, fun fuel trace => ⟨?_, hmain fuel trace⟩⟩
  rw [hmain fuel trace]
  exact fun h => Option.noConfusion h

/-- C12, amended: for counts whose sum does not wrap at `2 ^ 64`, a station
count that differs from `nBE + nBK + nVI + nVO` ends `main` at the check,
whatever the fuel and the trace, with nothing built and no report line; a
station count equal to the sum never ends `main` at the check, and within the
range of the loop counters the run goes on to its report line. -/
theorem config_check_aborts :
    (∀ (cfg : Config) (trace : SuccessInfo) (fuel : Nat),
      cfg.nBE + cfg.nBK + cfg.nVI + cfg.nVO < 2 ^ 64 →
      cfg.nSld ≠ cfg.nBE + cfg.nBK + cfg.nVI + cfg.nVO →
      main fuel cfg trace = some Outcome.wrongNSldParameter)
    ∧ (∀ (cfg : Config) (trace : SuccessInfo) (fuel : Nat),
      cfg.nSld < 2 ^ 64 →
      cfg.nSld = cfg.nBE + cfg.nBK + cfg.nVI + cfg.nVO →
      main fuel cfg trace ≠ some Outcome.wrongNSldParameter)
    ∧ (∀ (cfg : Config) (trace : SuccessInfo) (fuel : Nat),
      cfg.nSld = cfg.nBE + cfg.nBK + cfg.nVI + cfg.nVO →
      cfg.nSld < 2 ^ 32 - 1 → cfg.nSld < fuel →
      ∃ row, main fuel cfg trace
        = some (Outcome.reported (acList cfg.nBK cfg.nBE cfg.nVI cfg.nVO) row)) := by
  refine ⟨?_, ?_, ?_⟩
  · intro cfg trace fuel hsum hne
    have hw : wrongNSld cfg = true := by
      cases h : wrongNSld cfg with
      | true => rfl
      | false => exact absurd ((wrongNSld_eq_false cfg hsum).mp h) hne
    unfold main
    rw [hw]
    rfl
  · intro cfg trace fuel hlt heq
    have hw : wrongNSld cfg = false := (wrongNSld_eq_false cfg (by omega)).mpr heq
    unfold main
    rw [hw]
    simp only [Bool.false_eq_true, if_false]
    cases acListLoops fuel cfg with
    | none => simp
    | some l =>
      by_cases h : cfg.nSld < 2 ^ 32 - 1
      · simp [h]
      · simp [h]
  · intro cfg trace fuel heq hlt hf
    have hw : wrongNSld cfg = false := (wrongNSld_eq_false cfg (by omega)).mpr heq
    exact ⟨_, main_of_check_passed cfg trace fuel hw (by omega) (by omega) (by omega) (by omega)
      hlt ⟨by omega, by omega, by omega, by omega⟩⟩

/-- Witness of C12 amended: 4 stations announced for 2 + 1 + 1 + 1 end the run at the
check; the default 5 stations do not. -/
theorem config_check_aborts_witness :
    (mismatchConfig.nBE + mismatchConfig.nBK + mismatchConfig.nVI + mismatchConfig.nVO < 2 ^ 64
      ∧ mismatchConfig.nSld
          ≠ mismatchConfig.nBE + mismatchConfig.nBK + mismatchConfig.nVI + mismatchConfig.nVO
      ∧ main 0 mismatchConfig [] = some Outcome.wrongNSldParameter)
    ∧ (defaultConfig.nSld < 2 ^ 64
      ∧ defaultConfig.nSld
          = defaultConfig.nBE + defaultConfig.nBK + defaultConfig.nVI + defaultConfig.nVO
      ∧ main 6 defaultConfig [] ≠ some Outcome.wrongNSldParameter) :=
  ⟨⟨by decide, by decide, config_check_aborts.1 mismatchConfig [] 0 (by decide) (by decide)⟩,
    ⟨by decide, by decide, config_check_aborts.2.1 defaultConfig [] 6 (by decide) (by decide)⟩⟩


/-! ## Empty series, empty categories and the report line -/

/-- C11: for every run and every category whose stations have no record
(in particular a category without stations), the reported success
probability, throughput, mean queuing delay, mean access delay and mean
end-to-end delay of the category are all 0.0, whatever the other categories
contain. -/
theorem empty_category_reports_zero :
    (∀ (r : Run) (k : AcIndex), categoryRecords r k = [] →
      sldSuccPr r k = Dbl.fin 0 ∧ sldThpt r k = Dbl.fin 0 ∧ sldMeanQueDelay r k = Dbl.fin 0
      ∧ sldMeanAccDelay r k = Dbl.fin 0 ∧ sldMeanE2eDelay r k = Dbl.fin 0)
    ∧ (∀ (r : Run) (k : AcIndex), stationsOf r k = [] → categoryRecords r k = []) := by
  refine ⟨?_, ?_⟩
  · intro r k h
    have hs : ¬ 0 < (successMap r).get k := by
      rw [successMap_get, ← categoryRecords_length, h]
      simp
    rw [sldSuccPr_eq, sldThpt_eq, sldMeanQueDelay_eq, sldMeanAccDelay_eq, sldMeanE2eDelay_eq]
    simp only [if_neg hs, and_self]
  · intro r k h
    unfold categoryRecords categorySeries
    rw [h]
    rfl

/-- Witness of C11: in the weighted run the VI category has no station while
BE and BK have records. -/
theorem empty_category_reports_zero_witness :
    (categoryRecords weightedRun AcIndex.AC_VI = []
      ∧ sldSuccPr weightedRun AcIndex.AC_VI = Dbl.fin 0
      ∧ sldThpt weightedRun AcIndex.AC_VI = Dbl.fin 0
      ∧ sldMeanQueDelay weightedRun AcIndex.AC_VI = Dbl.fin 0
      ∧ sldMeanAccDelay weightedRun AcIndex.AC_VI = Dbl.fin 0
      ∧ sldMeanE2eDelay weightedRun AcIndex.AC_VI = Dbl.fin 0)
    ∧ (stationsOf weightedRun AcIndex.AC_VI = []
      ∧ categoryRecords weightedRun AcIndex.AC_VI = []) :=
  ⟨⟨by decide, empty_category_reports_zero.1 weightedRun AcIndex.AC_VI (by decide)⟩,
    ⟨by decide, empty_category_reports_zero.2 weightedRun AcIndex.AC_VI (by decide)⟩⟩

/-- C14: the report line has 44 fields.  Field `5 g + c + 1` (`g < 5`,
`c < 4`) is the value of group `g` (success probability, throughput, mean
queuing, mean access, mean end-to-end delay) for the `c`-th category of the
order BE, BK, VI, VO, and field `5 g + 5` is the total of group `g`; fields
26-32 are seed, duration, payload size, modulation index, channel width,
station count and arrival rate; the remaining fields are the four category
numbers and the four (CWmin, cutoff stage) pairs. -/
theorem report_line_layout (cfg : Config) (r : Run) :
    (reportRow cfg r).length = 44
    ∧ (∀ (g c : Nat) (k : AcIndex), g < 5 → categoryOrder[c]? = some k →
        (reportRow cfg r)[5 * g + c]? = some (Field.dbl (groupValue r g k)))
    ∧ (∀ g : Nat, g < 5 → (reportRow cfg r)[5 * g + 4]? = some (Field.dbl (groupTotal r g)))
    ∧ (reportRow cfg r).take 25 = (stats r).map Field.dbl
    ∧ ((reportRow cfg r).drop 25).take 7
        = [Field.nat cfg.rngRun, Field.real cfg.simulationTime, Field.nat cfg.payloadSize,
            Field.int cfg.mcs, Field.int cfg.channelWidth, Field.nat cfg.nSld,
            Field.real cfg.perSldLambda]
    ∧ (reportRow cfg r).drop 32
        = [Field.nat 0, Field.nat 1, Field.nat 2, Field.nat 3,
            Field.nat (u64Dec cfg.acBECwmin), Field.nat cfg.acBECwStage,
            Field.nat (u64Dec cfg.acBKCwmin), Field.nat cfg.acBKCwStage,
            Field.nat (u64Dec cfg.acVICwmin), Field.nat cfg.acVICwStage,
            Field.nat (u64Dec cfg.acVOCwmin), Field.nat cfg.acVOCwStage] := by
  refine ⟨rfl, ?_, ?_, rfl, rfl, rfl⟩
  · intro g c k hg hc
    have hc4 : c < 4 := by
      have := lt_length_of_getElem? categoryOrder c k hc
      simpa [categoryOrder] using this
    interval_cases g <;> interval_cases c <;>
      (simp only [categoryOrder, List.getElem?_cons_zero, List.getElem?_cons_succ,
        Option.some.injEq] at hc
       subst hc
       rfl)
  · intro g hg
    interval_cases g <;> rfl

/-- Witness of C14: the second field of the throughput group of the example
run is the BK throughput, and the fifth field of that group is the total. -/
theorem report_line_layout_witness :
    ((1 : Nat) < 5 ∧ categoryOrder[1]? = some AcIndex.AC_BK
      ∧ (reportRow defaultConfig exampleRun)[5 * 1 + 1]?
          = some (Field.dbl (groupValue exampleRun 1 AcIndex.AC_BK)))
    ∧ (reportRow defaultConfig exampleRun)[5 * 1 + 4]?
          = some (Field.dbl (groupTotal exampleRun 1)) :=
  ⟨⟨by decide, rfl,
      (report_line_layout defaultConfig exampleRun).2.1 1 1 AcIndex.AC_BK (by decide) rfl⟩,
    (report_line_layout defaultConfig exampleRun).2.2.1 1 (by decide)⟩


/-! ## Sign of the delays -/

theorem seriesOrdered_record (records : List TxRecord) (h : seriesOrdered records = true)
    (j : Nat) (cur : TxRecord) (hc : records[j]? = some cur) :
    cur.m_enqueueMs ≤ cur.m_dequeueMs := by
  unfold seriesOrdered at h
  rw [Bool.and_eq_true, List.all_eq_true, List.all_eq_true] at h
  have := h.1 cur (List.getElem?_mem hc)
  simpa using this

theorem seriesOrdered_adjacent (records : List TxRecord) (h : seriesOrdered records = true)
    (j : Nat) (prev cur : TxRecord) (hp : records[j]? = some prev)
    (hc : records[j + 1]? = some cur) : prev.m_dequeueMs ≤ cur.m_dequeueMs := by
  unfold seriesOrdered at h
  rw [Bool.and_eq_true, List.all_eq_true, List.all_eq_true] at h
  have hz : (records.zip records.tail)[j]? = some (prev, cur) := by
    rw [List.getElem?_zip_eq_some]
    exact ⟨hp, by rw [List.getElem?_tail]; exact hc⟩
  have := h.2 (prev, cur) (List.getElem?_mem hz)
  simpa using this

theorem queuingDelays_getElem? (records : List TxRecord) (j : Nat) (prev cur : TxRecord)
    (hp : records[j]? = some prev) (hc : records[j + 1]? = some cur) :
    (queuingDelays records)[j]?
      = some (max cur.m_enqueueMs prev.m_dequeueMs - cur.m_enqueueMs) := by
  have hj : j < (enqueueTimeMap records).length := by
    have := lt_length_of_getElem? records (j + 1) cur hc
    rw [enqueueTimeMap_length]; omega
  unfold queuingDelays
  simp only [List.getElem?_map, List.getElem?_range hj, Option.map_some']
  rw [holTimeMap_getD records j prev cur hp hc, enqueueTimeMap_getD records j cur hc]

theorem accessDelays_getElem? (records : List TxRecord) (j : Nat) (prev cur : TxRecord)
    (hp : records[j]? = some prev) (hc : records[j + 1]? = some cur) :
    (linkDelays records).accessDelays[j]?
      = some (cur.m_dequeueMs - max cur.m_enqueueMs prev.m_dequeueMs) := by
  have hj : j < (enqueueTimeMap records).length := by
    have := lt_length_of_getElem? records (j + 1) cur hc
    rw [enqueueTimeMap_length]; omega
  rw [linkDelays_accessDelays]
  simp only [List.getElem?_map, List.getElem?_range hj, Option.map_some']
  rw [dequeueTimeMap_getD records j cur hc, holTimeMap_getD records j prev cur hp hc]

theorem e2eDelays_getElem? (records : List TxRecord) (j : Nat) (cur : TxRecord)
    (hc : records[j + 1]? = some cur) :
    (linkDelays records).e2eDelays[j]? = some (cur.m_dequeueMs - cur.m_enqueueMs) := by
  have hj : j < (enqueueTimeMap records).length := by
    have := lt_length_of_getElem? records (j + 1) cur hc
    rw [enqueueTimeMap_length]; omega
  rw [linkDelays_e2eDelays]
  simp only [List.getElem?_map, List.getElem?_range hj, Option.map_some']
  rw [dequeueTimeMap_getD records j cur hc, enqueueTimeMap_getD records j cur hc]

/-- Every index of the erased vectors has a record and a predecessor in the
series. -/
theorem exists_adjacent (records : List TxRecord) (j : Nat)
    (hj : j < (enqueueTimeMap records).length) :
    ∃ prev cur, records[j]? = some prev ∧ records[j + 1]? = some cur := by
  rw [enqueueTimeMap_length] at hj
  have h0 : j < records.length := by omega
  have h1 : j + 1 < records.length := by omega
  exact ⟨records.get ⟨j, h0⟩, records.get ⟨j + 1, h1⟩, by simp [List.getElem?_eq_getElem h0],
    by simp [List.getElem?_eq_getElem h1]⟩

theorem totalQueuingDelay_nonneg (records : List TxRecord) :
    0 ≤ (linkDelays records).totalQueuingDelay := by
  rw [linkDelays_totalQueuingDelay]
  apply List.sum_nonneg
  intro x hx
  obtain ⟨j, hj⟩ := List.mem_iff_getElem?.mp hx
  have hlen : j < (enqueueTimeMap records).length := by
    have := lt_length_of_getElem? _ j x hj
    simpa [queuingDelays] using this
  obtain ⟨prev, cur, hp, hc⟩ := exists_adjacent records j hlen
  rw [queuingDelays_getElem? records j prev cur hp hc] at hj
  injection hj with hj
  rw [← hj]
  exact sub_nonneg.mpr (le_max_left _ _)

theorem totalAccessDelay_nonneg (records : List TxRecord) (h : seriesOrdered records = true) :
    0 ≤ (linkDelays records).totalAccessDelay := by
  rw [linkDelays_totalAccessDelay]
  apply List.sum_nonneg
  intro x hx
  obtain ⟨j, hj⟩ := List.mem_iff_getElem?.mp hx
  have hlen : j < (enqueueTimeMap records).length := by
    have := lt_length_of_getElem? _ j x hj
    simpa [linkDelays_accessDelays] using this
  obtain ⟨prev, cur, hp, hc⟩ := exists_adjacent records j hlen
  rw [accessDelays_getElem? records j prev cur hp hc] at hj
  injection hj with hj
  rw [← hj]
  exact sub_nonneg.mpr (max_le (seriesOrdered_record records h (j + 1) cur hc)
    (seriesOrdered_adjacent records h j prev cur hp hc))

/-- C15: in a series whose records complete no earlier than they are enqueued
and whose completion times do not decrease, every retained record (original
index `j + 1`) has a non-negative queuing term and a non-negative access
term, each at most its end-to-end delay; hence the per-(node, link) totals
and the per-category totals of such series are non-negative. -/
theorem delays_nonnegative :
    (∀ (records : List TxRecord) (j : Nat) (prev cur : TxRecord),
      seriesOrdered records = true → records[j]? = some prev → records[j + 1]? = some cur →
      ∃ q a e : ℚ,
        (queuingDelays records)[j]? = some q
        ∧ (linkDelays records).accessDelays[j]? = some a
        ∧ (linkDelays records).e2eDelays[j]? = some e
        ∧ 0 ≤ q ∧ 0 ≤ a ∧ q ≤ e ∧ a ≤ e)
    ∧ (∀ records : List TxRecord, seriesOrdered records = true →
        0 ≤ (linkDelays records).totalQueuingDelay ∧ 0 ≤ (linkDelays records).totalAccessDelay)
    ∧ (∀ (r : Run) (k : AcIndex), (∀ s ∈ categorySeries r k, seriesOrdered s = true) →
        0 ≤ (queDelayTotalMap r).get k ∧ 0 ≤ (accDelayTotalMap r).get k) := by
  refine ⟨?_, ?_, ?_⟩
  · intro records j prev cur h hp hc
    have h1 := seriesOrdered_record records h (j + 1) cur hc
    have h2 := seriesOrdered_adjacent records h j prev cur hp hc
    have hq : 0 ≤ max cur.m_enqueueMs prev.m_dequeueMs - cur.m_enqueueMs :=
      sub_nonneg.mpr (le_max_left _ _)
    have ha : 0 ≤ cur.m_dequeueMs - max cur.m_enqueueMs prev.m_dequeueMs :=
      sub_nonneg.mpr (max_le h1 h2)
    refine ⟨_, _, _, queuingDelays_getElem? records j prev cur hp hc,
      accessDelays_getElem? records j prev cur hp hc, e2eDelays_getElem? records j cur hc,
      hq, ha, ?_, ?_⟩
    · linarith
    · linarith
  · intro records h
    exact ⟨totalQueuingDelay_nonneg records, totalAccessDelay_nonneg records h⟩
  · intro r k h
    rw [queDelayTotalMap_get, accDelayTotalMap_get]
    constructor
    · apply List.sum_nonneg
      intro x hx
      obtain ⟨s, _, rfl⟩ := List.mem_map.mp hx
      exact totalQueuingDelay_nonneg s
    · apply List.sum_nonneg
      intro x hx
      obtain ⟨s, hs, rfl⟩ := List.mem_map.mp hx
      exact totalAccessDelay_nonneg s (h s hs)

/-- Witness of C15: the example series is ordered; its second record and the
BE category of the example run. -/
theorem delays_nonnegative_witness :
    (seriesOrdered exampleSeries = true
      ∧ exampleSeries[0]? = some ⟨0, 10, 0⟩ ∧ exampleSeries[0 + 1]? = some ⟨5, 20, 0⟩)
    ∧ (∃ q a e : ℚ,
        (queuingDelays exampleSeries)[0]? = some q
        ∧ (linkDelays exampleSeries).accessDelays[0]? = some a
        ∧ (linkDelays exampleSeries).e2eDelays[0]? = some e
        ∧ 0 ≤ q ∧ 0 ≤ a ∧ q ≤ e ∧ a ≤ e)
    ∧ (0 ≤ (linkDelays exampleSeries).totalQueuingDelay
        ∧ 0 ≤ (linkDelays exampleSeries).totalAccessDelay)
    ∧ (∀ s ∈ categorySeries exampleRun AcIndex.AC_BE, seriesOrdered s = true)
    ∧ (0 ≤ (queDelayTotalMap exampleRun).get AcIndex.AC_BE
        ∧ 0 ≤ (accDelayTotalMap exampleRun).get AcIndex.AC_BE) :=
  ⟨⟨by decide, rfl, rfl⟩,
    delays_nonnegative.1 exampleSeries 0 ⟨0, 10, 0⟩ ⟨5, 20, 0⟩ (by decide) rfl rfl,
    delays_nonnegative.2.1 exampleSeries (by decide),
    by decide,
    delays_nonnegative.2.2 exampleRun AcIndex.AC_BE (by decide)⟩


/-! ## Range of the success probabilities -/

theorem sum_failures_eq_zero_iff (l : List TxRecord) :
    (l.map (fun pkt => pkt.m_failures)).sum = 0 ↔ ∀ pkt ∈ l, pkt.m_failures = 0 := by
  rw [List.sum_eq_zero_iff]
  constructor
  · intro h pkt hp
    exact h _ (List.mem_map.mpr ⟨pkt, hp, rfl⟩)
  · intro h x hx
    obtain ⟨pkt, hp, rfl⟩ := List.mem_map.mp hx
    exact h pkt hp

/-- C17: with counts that fit 64 bits, every category has at least as many
attempts as successes; its success probability is a number in [0, 1], positive
when the category has a record, and equal to 1 exactly when the category has
a record and none of its records has a failure; the total success probability
is in (0, 1] whenever the total attempt count is positive. -/
theorem success_probability_bounds :
    (∀ (r : Run) (k : AcIndex), attemptTotal r < 2 ^ 64 →
      (successMap r).get k ≤ (attemptMap r).get k
      ∧ ∃ p : ℚ, sldSuccPr r k = Dbl.fin p ∧ 0 ≤ p ∧ p ≤ 1
          ∧ (categoryRecords r k ≠ [] → 0 < p)
          ∧ (p = 1 ↔ categoryRecords r k ≠ []
                ∧ ∀ pkt ∈ categoryRecords r k, pkt.m_failures = 0))
    ∧ (∀ r : Run, attemptTotal r < 2 ^ 64 → 0 < attemptTotal r →
      successTotal r ≤ attemptTotal r
      ∧ ∃ p : ℚ, sldSuccPr_total r = Dbl.fin p ∧ 0 < p ∧ p ≤ 1) := by
  have hle : ∀ (r : Run) (k : AcIndex), (successMap r).get k ≤ (attemptMap r).get k := by
    intro r k
    rw [attemptMap_eq_success_add_failures]
    exact Nat.le_add_right _ _
  have hpos : ∀ (r : Run) (k : AcIndex), 0 < (attemptMap r).get k → 0 < (successMap r).get k := by
    intro r k ha
    by_contra hn
    have h0 : (successMap r).get k = 0 := by omega
    have hnil : categoryRecords r k = [] := by
      rw [successMap_get, ← categoryRecords_length] at h0
      exact List.length_eq_zero.mp h0
    rw [attemptMap_eq_success_add_failures, h0, hnil] at ha
    simp at ha
  refine ⟨?_, ?_⟩
  · intro r k _
    refine ⟨hle r k, ?_⟩
    have hlen : (successMap r).get k = (categoryRecords r k).length := by
      rw [successMap_get, categoryRecords_length]
    have hatt := attemptMap_eq_success_add_failures r k
    by_cases hs : 0 < (successMap r).get k
    · have ha : 0 < (attemptMap r).get k := lt_of_lt_of_le hs (hle r k)
      have haq : (0 : ℚ) < ((attemptMap r).get k : ℚ) := by exact_mod_cast ha
      have hsq : (0 : ℚ) < ((successMap r).get k : ℚ) := by exact_mod_cast hs
      have hleq : ((successMap r).get k : ℚ) ≤ ((attemptMap r).get k : ℚ) := by
        exact_mod_cast hle r k
      have hne : categoryRecords r k ≠ [] := by
        intro hnil
        rw [hlen, hnil] at hs
        simp at hs
      refine ⟨((successMap r).get k : ℚ) / ((attemptMap r).get k : ℚ), ?_, ?_, ?_, ?_, ?_⟩
      · rw [sldSuccPr_eq, if_pos hs, if_pos ha, Dbl.div_fin _ _ (ne_of_gt haq)]
      · exact le_of_lt (div_pos hsq haq)
      · exact (div_le_one haq).mpr hleq
      · intro _
        exact div_pos hsq haq
      · rw [div_eq_one_iff_eq (ne_of_gt haq)]
        constructor
        · intro heq
          have heqn : (successMap r).get k = (attemptMap r).get k := by exact_mod_cast heq
          refine ⟨hne, (sum_failures_eq_zero_iff _).mp ?_⟩
          omega
        · intro h
          have h0 := (sum_failures_eq_zero_iff _).mpr h.2
          rw [hatt, h0]
          simp
    · have hnil : categoryRecords r k = [] := by
        have h0 : (successMap r).get k = 0 := by omega
        rw [hlen] at h0
        exact List.length_eq_zero.mp h0
      refine ⟨0, ?_, le_refl _, zero_le_one, ?_, ?_⟩
      · rw [sldSuccPr_eq, if_neg hs]
      · intro h
        exact absurd hnil h
      · constructor
        · intro h
          exact absurd h (by norm_num)
        · intro h
          exact absurd hnil h.1
  · intro r _ hat
    have hst : successTotal r ≤ attemptTotal r := by
      unfold successTotal attemptTotal
      have h1 := hle r AcIndex.AC_BE
      have h2 := hle r AcIndex.AC_BK
      have h3 := hle r AcIndex.AC_VI
      have h4 := hle r AcIndex.AC_VO
      omega
    have hsp : 0 < successTotal r := by
      unfold attemptTotal at hat
      unfold successTotal
      by_contra hn
      have h1 : ¬ 0 < (attemptMap r).get AcIndex.AC_BE := fun h => by
        have := hpos r _ h; omega
      have h2 : ¬ 0 < (attemptMap r).get AcIndex.AC_BK := fun h => by
        have := hpos r _ h; omega
      have h3 : ¬ 0 < (attemptMap r).get AcIndex.AC_VI := fun h => by
        have := hpos r _ h; omega
      have h4 : ¬ 0 < (attemptMap r).get AcIndex.AC_VO := fun h => by
        have := hpos r _ h; omega
      omega
    have haq : (0 : ℚ) < (attemptTotal r : ℚ) := by exact_mod_cast hat
    have hsq : (0 : ℚ) < (successTotal r : ℚ) := by exact_mod_cast hsp
    have hleq : (successTotal r : ℚ) ≤ (attemptTotal r : ℚ) := by exact_mod_cast hst
    refine ⟨hst, (successTotal r : ℚ) / (attemptTotal r : ℚ), ?_, div_pos hsq haq,
      (div_le_one haq).mpr hleq⟩
    unfold sldSuccPr_total
    exact Dbl.div_fin _ _ (ne_of_gt haq)

/-- Witness of C17: the weighted run, whose 12 attempts fit 64 bits. -/
theorem success_probability_bounds_witness :
    (attemptTotal weightedRun < 2 ^ 64 ∧ 0 < attemptTotal weightedRun)
    ∧ ((successMap weightedRun).get AcIndex.AC_BE ≤ (attemptMap weightedRun).get AcIndex.AC_BE
      ∧ ∃ p : ℚ, sldSuccPr weightedRun AcIndex.AC_BE = Dbl.fin p ∧ 0 ≤ p ∧ p ≤ 1
          ∧ (categoryRecords weightedRun AcIndex.AC_BE ≠ [] → 0 < p)
          ∧ (p = 1 ↔ categoryRecords weightedRun AcIndex.AC_BE ≠ []
                ∧ ∀ pkt ∈ categoryRecords weightedRun AcIndex.AC_BE, pkt.m_failures = 0))
    ∧ (successTotal weightedRun ≤ attemptTotal weightedRun
      ∧ ∃ p : ℚ, sldSuccPr_total weightedRun = Dbl.fin p ∧ 0 < p ∧ p ≤ 1) :=
  ⟨⟨by decide, by decide⟩,
    success_probability_bounds.1 weightedRun AcIndex.AC_BE (by decide),
    success_probability_bounds.2 weightedRun (by decide) (by decide)⟩


/-! ## Which records the report depends on -/

theorem lookup_map_getD {β γ : Type} (f : β → γ) (l : List (Nat × List β)) (i : Nat) :
    ((l.lookup i).map (List.map f)).getD [] = ((l.lookup i).getD []).map f := by
  cases l.lookup i <;> simp

theorem countNode_congr (r1 r2 : Run) (st : Counts) (i : Nat) (hac : r1.acList = r2.acList)
    (h : (r1.successInfo.lookup i).getD [] = (r2.successInfo.lookup i).getD []) :
    countNode r1 st i = countNode r2 st i := by
  unfold countNode
  rw [hac, h]

theorem delayNode_congr (r1 r2 : Run) (st : DelayTotals) (i : Nat) (hac : r1.acList = r2.acList)
    (h : (r1.successInfo.lookup i).getD [] = (r2.successInfo.lookup i).getD []) :
    delayNode r1 st i = delayNode r2 st i := by
  unfold delayNode totalQueuingDelayPerNodeLink totalAccessDelayPerNodeLink
  simp only [lookup_map_snd, lookup_map_getD]
  rw [hac, h]

theorem mem_range'_one (n i : Nat) (hi : i ∈ List.range' 1 n) : 1 ≤ i ∧ i ≤ n := by
  rw [List.mem_range'_1] at hi
  omega

theorem countLoop_congr (r1 r2 : Run) (hac : r1.acList = r2.acList) (hn : r1.nSld = r2.nSld)
    (h : ∀ i : Nat, 1 ≤ i → i ≤ r1.nSld →
      (r1.successInfo.lookup i).getD [] = (r2.successInfo.lookup i).getD []) :
    countLoop r1 = countLoop r2 := by
  unfold countLoop
  rw [← hn]
  apply List.foldl_ext
  intro st i hi
  have hb := mem_range'_one _ _ hi
  exact countNode_congr r1 r2 st i hac (h i hb.1 hb.2)

theorem delayTotals_congr (r1 r2 : Run) (hac : r1.acList = r2.acList) (hn : r1.nSld = r2.nSld)
    (h : ∀ i : Nat, 1 ≤ i → i ≤ r1.nSld →
      (r1.successInfo.lookup i).getD [] = (r2.successInfo.lookup i).getD []) :
    delayTotals r1 = delayTotals r2 := by
  unfold delayTotals
  rw [← hn]
  apply List.foldl_ext
  intro st i hi
  have hb := mem_range'_one _ _ hi
  exact delayNode_congr r1 r2 st i hac (h i hb.1 hb.2)

theorem stats_congr (r1 r2 : Run) (hc : countLoop r1 = countLoop r2)
    (hd : delayTotals r1 = delayTotals r2) (hp : r1.payloadSize = r2.payloadSize)
    (ht : r1.simulationTime = r2.simulationTime) : stats r1 = stats r2 := by
  have hs : successMap r1 = successMap r2 := by unfold successMap; rw [hc]
  have ha : attemptMap r1 = attemptMap r2 := by unfold attemptMap; rw [hc]
  have hq : queDelayTotalMap r1 = queDelayTotalMap r2 := by unfold queDelayTotalMap; rw [hd]
  have hacc : accDelayTotalMap r1 = accDelayTotalMap r2 := by unfold accDelayTotalMap; rw [hd]
  have hpr : sldSuccPrMap r1 = sldSuccPrMap r2 := by unfold sldSuccPrMap; rw [hs, ha]
  have hth : sldThptMap r1 = sldThptMap r2 := by unfold sldThptMap; rw [hs, hp, ht]
  have hstep : meanStep r1 = meanStep r2 := by
    funext st type
    unfold meanStep
    rw [hs, hq, hacc]
  have hm : meanMaps r1 = meanMaps r2 := by unfold meanMaps; rw [hs, hstep]
  unfold stats sldSuccPr sldSuccPr_total sldThpt_total sldThpt sldMeanE2eDelay_total
    sldMeanQueDelay_total sldMeanAccDelay_total sldMeanQueDelay sldMeanAccDelay sldMeanE2eDelay
    successTotal attemptTotal
  rw [hs, ha, hq, hacc, hpr, hth, hm]

theorem lookup_stationTrace (r : Run) (i : Nat) (h1 : 1 ≤ i) (hi : i ≤ r.nSld) :
    (stationTrace r).lookup i = r.successInfo.lookup i := by
  unfold stationTrace
  induction r.successInfo with
  | nil => rfl
  | cons x xs ih =>
    obtain ⟨k, b⟩ := x
    by_cases hk : 1 ≤ k ∧ k ≤ r.nSld
    · rw [List.filter_cons_of_pos (by simpa using hk)]
      simp only [List.lookup_cons]
      rw [ih]
    · rw [List.filter_cons_of_neg (by simpa using hk), ih]
      have hne : (i == k) = false := by
        rw [beq_eq_false_iff_ne]
        intro heq
        subst heq
        exact hk ⟨h1, hi⟩
      simp only [List.lookup_cons, hne]

/-- C18: two runs with the same assignment, station count, payload size and
window length whose traces agree on the records of every node id
`1 .. nSld` report the same 25 statistics; in particular the statistics of a
run are those of its trace restricted to the node ids `1 .. nSld`, so records
of node 0 and of node ids above `nSld` contribute nothing. -/
theorem report_depends_on_station_records :
    (∀ r1 r2 : Run, r1.acList = r2.acList → r1.nSld = r2.nSld →
      r1.payloadSize = r2.payloadSize → r1.simulationTime = r2.simulationTime →
      (∀ i : Nat, 1 ≤ i → i ≤ r1.nSld →
        (r1.successInfo.lookup i).getD [] = (r2.successInfo.lookup i).getD []) →
      stats r1 = stats r2 ∧ countLoop r1 = countLoop r2 ∧ delayTotals r1 = delayTotals r2)
    ∧ (∀ r : Run, stats r = stats { r with successInfo := stationTrace r }) := by
  have hgen : ∀ r1 r2 : Run, r1.acList = r2.acList → r1.nSld = r2.nSld →
      r1.payloadSize = r2.payloadSize → r1.simulationTime = r2.simulationTime →
      (∀ i : Nat, 1 ≤ i → i ≤ r1.nSld →
        (r1.successInfo.lookup i).getD [] = (r2.successInfo.lookup i).getD []) →
      stats r1 = stats r2 ∧ countLoop r1 = countLoop r2 ∧ delayTotals r1 = delayTotals r2 := by
    intro r1 r2 hac hn hp ht h
    have hc := countLoop_congr r1 r2 hac hn h
    have hd := delayTotals_congr r1 r2 hac hn h
    exact ⟨stats_congr r1 r2 hc hd hp ht, hc, hd⟩
  refine ⟨hgen, fun r => ?_⟩
  refine (hgen r { r with successInfo := stationTrace r } rfl rfl rfl rfl ?_).1
  intro i h1 hi
  show (r.successInfo.lookup i).getD [] = ((stationTrace r).lookup i).getD []
  rw [lookup_stationTrace r i h1 hi]

/-- Witness of C18: the example run and the same run with records of node 0
and node 7 added report the same statistics. -/
theorem report_depends_on_station_records_witness :
    (noisyRun.acList = exampleRun.acList ∧ noisyRun.nSld = exampleRun.nSld
      ∧ noisyRun.payloadSize = exampleRun.payloadSize
      ∧ noisyRun.simulationTime = exampleRun.simulationTime
      ∧ (∀ i : Nat, 1 ≤ i → i ≤ noisyRun.nSld →
          (noisyRun.successInfo.lookup i).getD [] = (exampleRun.successInfo.lookup i).getD []))
    ∧ stats noisyRun = stats exampleRun :=
  have h : ∀ i : Nat, 1 ≤ i → i ≤ noisyRun.nSld →
      (noisyRun.successInfo.lookup i).getD [] = (exampleRun.successInfo.lookup i).getD [] := by
    intro i h1 hi
    have h2 : i ≤ 1 := hi
    have : i = 1 := by omega
    subst this
    rfl
  ⟨⟨rfl, rfl, rfl, rfl, h⟩,
    (report_depends_on_station_records.1 noisyRun exampleRun rfl rfl rfl rfl h).1⟩


end SingleBssSldEdca
